import Mathlib

/-!
Verification of the CrashLens suppression/ownership engine
(`src/crashlens/cli_new.py`, class `SuppressionEngine`).

The engine is embedded shallowly:

* A Python detection dict is a `Detection` record.  The fields the engine
  reads (`trace_id`, `type`) are modelled as `Option String` (absent key /
  string value); the embedding therefore covers exactly the inputs on which
  these fields are absent-or-string.  A second, dynamically typed embedding
  (`PyVal`, `DynDetection`, suffix `D`) covers non-string field values and
  models the exceptions Python raises on them.
* `suppressed_by` distinguishes "key absent" (`none`), "set to None"
  (`some none`) and "set to a detector name" (`some (some n)`).
* `did` is a ghost identity tag for a detection (Python object identity) and
  `producer` is a ghost record of which detector produced the detection; the
  engine never reads either, they only let theorems speak about identity and
  provenance.  `Detection.copy()` keeps both.
* The Python dict `trace_ownership` is a function `String → Option String`
  updated pointwise, exactly the reads/writes the code performs.
* The two-level config access
  `suppression_config.get(key, {}).get('suppress_if_retry_loop', False)`
  is modelled as a single boolean-valued lookup `cfg : String → Bool` on the
  normalised key, which is the only way the engine ever reads the config.
* String normalisation (`.lower()`, `.replace`, substring `in`) is modelled
  on `List Char`; Python's `str.lower` agrees with `Char.toLower` on the
  ASCII strings involved.
-/

/-- Python `s.lower()` on an ASCII string, as a character list map. -/
def lowerChars (l : List Char) : List Char := l.map Char.toLower

/-- Python substring test `pat in hay` on character lists. -/
def isSubList (pat : List Char) : List Char → Bool
  | [] => pat.isEmpty
  | c :: rest => pat.isPrefixOf (c :: rest) || isSubList pat rest

/-- Fuelled helper for `removeSub`: one unit of fuel per input character. -/
def removeSubFuel (pat : List Char) : Nat → List Char → List Char
  | 0, l => l
  | _ + 1, [] => []
  | fuel + 1, c :: rest =>
    if pat.isPrefixOf (c :: rest) then
      removeSubFuel pat fuel (rest.drop (pat.length - 1))
    else
      c :: removeSubFuel pat fuel rest

/-- Python `s.replace(pat, '')` for a nonempty `pat`: remove every
left-to-right non-overlapping occurrence of `pat`. -/
def removeSub (pat l : List Char) : List Char := removeSubFuel pat l.length l

/-- `detection.get('type', '').replace('_', '').replace(' ', '').lower()`
from `SuppressionEngine._transfer_ownership`. -/
def normType (o : Option String) : List Char :=
  lowerChars (((o.getD "").toList.filter (fun c => !(c == '_' || c == ' '))))

/-- `detector_name.lower().replace('detector', '')` from
`SuppressionEngine._is_detector_suppressed`. -/
def configKey (name : String) : String :=
  ⟨removeSub "detector".toList (lowerChars name.toList)⟩

/-- The global `DETECTOR_PRIORITY` dict of `cli_new.py`. -/
def DETECTOR_PRIORITY (n : String) : Option Nat :=
  if n = "RetryLoopDetector" then some 1
  else if n = "FallbackStormDetector" then some 2
  else if n = "FallbackFailureDetector" then some 3
  else if n = "OverkillModelDetector" then some 4
  else none

/-- `DETECTOR_PRIORITY.get(name, 999)`. -/
def priorityOf (n : String) : Nat := (DETECTOR_PRIORITY n).getD 999

/-- `name` is one of the four detectors in `DETECTOR_PRIORITY`. -/
def isKnown (n : String) : Bool := (DETECTOR_PRIORITY n).isSome

/-- A detection dict as processed by the engine.  `did` and `producer` are
ghost fields (see module docstring); the remaining fields are the keys the
engine reads or writes. -/
structure Detection where
  did : Nat
  trace_id : Option String
  dtype : Option String
  producer : String
  suppressed_by : Option (Option String)
  suppression_reason : Option String
  detector : Option String
deriving DecidableEq, Repr

/-- The identity of a detection: ghost tag plus the engine-untouched payload
fields.  Engine metadata (`suppressed_by`, `suppression_reason`, `detector`)
is excluded, since the engine mutates it in place / on the copy. -/
def Detection.core (d : Detection) : Nat × Option String × Option String × String :=
  (d.did, d.trace_id, d.dtype, d.producer)

/-- The state of a `SuppressionEngine` object. -/
structure EngineState where
  cfg : String → Bool
  trace_ownership : String → Option String
  suppressed_detections : List Detection
  active_detections : List Detection

/-- `SuppressionEngine.__init__`. -/
def initState (cfg : String → Bool) : EngineState :=
  { cfg := cfg
    trace_ownership := fun _ => none
    suppressed_detections := []
    active_detections := [] }

/-- `SuppressionEngine._is_detector_suppressed`. -/
def isDetectorSuppressed (s : EngineState) (name t : String) : Bool :=
  s.cfg (configKey name) && decide (s.trace_ownership t = some "RetryLoopDetector")

/-- The copy built by `SuppressionEngine._add_suppressed_detection`. -/
def suppressedCopy (d : Detection) (name reason : String) : Detection :=
  { d with suppressed_by := some (some name)
           suppression_reason := some reason
           detector := some name }

/-- `SuppressionEngine._add_suppressed_detection`. -/
def addSuppressed (s : EngineState) (d : Detection) (name reason : String) : EngineState :=
  { s with suppressed_detections := s.suppressed_detections ++ [suppressedCopy d name reason] }

/-- The filter condition of `SuppressionEngine._transfer_ownership`:
`detection.get('trace_id') == trace_id and
 detection.get('type', '').replace('_','').replace(' ','').lower() in old_owner.lower()`. -/
def transferMatch (t oldOwner : String) (d : Detection) : Bool :=
  d.trace_id == some t && isSubList (normType d.dtype) (lowerChars oldOwner.toList)

/-- `SuppressionEngine._transfer_ownership` (it moves detections; the caller
updates `trace_ownership` afterwards). -/
def transferOwnership (s : EngineState) (t oldOwner newOwner : String) : EngineState :=
  let toSuppress := s.active_detections.filter (transferMatch t oldOwner)
  let remaining := s.active_detections.filter (fun d => !(transferMatch t oldOwner d))
  let s2 := toSuppress.foldl
    (fun st d => addSuppressed st d oldOwner ("superseded_by:" ++ newOwner)) s
  { s2 with active_detections := remaining }

/-- The in-place mutation `detection['suppressed_by'] = None`. -/
def markActive (d : Detection) : Detection := { d with suppressed_by := some none }

/-- The accept step of `process_detections`:
`self.trace_ownership[trace_id] = detector_name`,
`detection['suppressed_by'] = None`, `active.append(detection)`. -/
def acceptDet (name : String) (s : EngineState) (t : String) (d : Detection)
    (active : List Detection) : List Detection × EngineState :=
  (active ++ [markActive d],
   { s with trace_ownership := fun k => if k = t then some name else s.trace_ownership k })

/-- One iteration of the `for detection in detections` loop of
`SuppressionEngine.process_detections`, acting on the local `active` list and
the engine state. -/
def processOne (name : String) (acc : List Detection × EngineState) (d : Detection) :
    List Detection × EngineState :=
  let active := acc.1
  let s := acc.2
  match d.trace_id with
  | none => (active ++ [d], s)
  | some t =>
    if t = "" then (active ++ [d], s)
    else if isDetectorSuppressed s name t then
      (active, addSuppressed s d name "disabled_by_config")
    else
      match s.trace_ownership t with
      | some currentOwner =>
        if priorityOf name > priorityOf currentOwner then
          (active, addSuppressed s d name ("higher_priority_detector:" ++ currentOwner))
        else
          acceptDet name
            (if priorityOf name < priorityOf currentOwner then
              transferOwnership s t currentOwner name
            else s) t d active
      | none => acceptDet name s t d active

/-- `SuppressionEngine.process_detections`: returns the batch's active
detections and the new engine state (`self.active_detections.extend(active)`
runs after the loop). -/
def processDetections (s : EngineState) (name : String) (dets : List Detection) :
    List Detection × EngineState :=
  let r := dets.foldl (processOne name) ([], s)
  (r.1, { r.2 with active_detections := r.2.active_detections ++ r.1 })

/-- A sequence of `process_detections` calls on one engine object. -/
def runCalls (s : EngineState) (calls : List (String × List Detection)) : EngineState :=
  calls.foldl (fun st c => (processDetections st c.1 c.2).2) s

/-!
## Dynamically typed model (for exception behaviour)

Python dicts are dynamically typed: `trace_id` and `type` values need not be
strings.  The engine then raises `TypeError` when an unhashable `trace_id`
is used as a dict key, and `AttributeError` when `.replace` is called on a
non-string `type` value during an ownership transfer.  `PyVal` models the
Python values that can sit in those fields, and the `D`-suffixed functions
re-embed the engine with each fallible step in `Except String`.
-/

/-- A dynamically typed Python value for the fields the engine reads:
a string, an int, or a list (the representative unhashable value; its
elements are kept at strings, which suffices for equality and truthiness). -/
inductive PyVal where
  | pstr (s : String)
  | pint (n : Int)
  | plist (elems : List String)
deriving DecidableEq, Repr

/-- Python truthiness of a `PyVal`. -/
def truthyD : PyVal → Bool
  | .pstr s => !(s == "")
  | .pint n => !(n == 0)
  | .plist l => !l.isEmpty

/-- Whether a `PyVal` may be used as a dict key. -/
def pyHashable : PyVal → Bool
  | .plist _ => false
  | _ => true

/-- A detection dict with dynamically typed field values. -/
structure DynDetection where
  did : Nat
  trace_id : Option PyVal
  dtype : Option PyVal
  waste_cost : Option PyVal
  waste_tokens : Option PyVal
  suppressed_by : Option (Option String)
  suppression_reason : Option String
  detector : Option String
deriving DecidableEq, Repr

/-- Engine state for the dynamically typed model; `trace_ownership` is keyed
by the raw `trace_id` value (Python dicts accept any hashable key). -/
structure DynState where
  cfg : String → Bool
  trace_ownership : PyVal → Option String
  suppressed_detections : List DynDetection
  active_detections : List DynDetection

/-- `SuppressionEngine.__init__` in the dynamic model. -/
def initStateD (cfg : String → Bool) : DynState :=
  { cfg := cfg
    trace_ownership := fun _ => none
    suppressed_detections := []
    active_detections := [] }

/-- A dict read (`get`, `in`, `[...]`) keyed by a `PyVal`: raises
`TypeError` on an unhashable key. -/
def dictGetD (own : PyVal → Option String) (k : PyVal) : Except String (Option String) :=
  if pyHashable k then .ok (own k) else .error "TypeError: unhashable type"

/-- `_is_detector_suppressed` in the dynamic model; the `and` short-circuits,
so the dict is only touched when the config flag is set. -/
def isDetectorSuppressedD (s : DynState) (name : String) (tid : PyVal) :
    Except String Bool :=
  if s.cfg (configKey name) then
    match dictGetD s.trace_ownership tid with
    | .error e => .error e
    | .ok o => .ok (o == some "RetryLoopDetector")
  else .ok false

/-- `detection.get('type', '').replace(...)`: raises `AttributeError` when
the stored value is not a string. -/
def normTypeD : Option PyVal → Except String (List Char)
  | none => .ok (normType none)
  | some (.pstr s) => .ok (normType (some s))
  | some _ => .error "AttributeError: no attribute replace"

/-- The copy built by `_add_suppressed_detection` (dynamic model). -/
def suppressedCopyD (d : DynDetection) (name reason : String) : DynDetection :=
  { d with suppressed_by := some (some name)
           suppression_reason := some reason
           detector := some name }

/-- `_add_suppressed_detection` (dynamic model). -/
def addSuppressedD (s : DynState) (d : DynDetection) (name reason : String) : DynState :=
  { s with suppressed_detections := s.suppressed_detections ++ [suppressedCopyD d name reason] }

/-- The filter condition of `_transfer_ownership`; the `and` short-circuits,
so `.replace` is only evaluated on detections of the matching trace. -/
def transferMatchD (tid : PyVal) (oldOwner : String) (d : DynDetection) :
    Except String Bool :=
  if d.trace_id = some tid then
    match normTypeD d.dtype with
    | .error e => .error e
    | .ok n => .ok (isSubList n (lowerChars oldOwner.toList))
  else .ok false

/-- The partition of the active list performed by `_transfer_ownership`,
evaluating the filter condition detection by detection. -/
def transferSplitD (tid : PyVal) (oldOwner : String) :
    List DynDetection → Except String (List DynDetection × List DynDetection)
  | [] => .ok ([], [])
  | d :: rest =>
    match transferMatchD tid oldOwner d with
    | .error e => .error e
    | .ok c =>
      match transferSplitD tid oldOwner rest with
      | .error e => .error e
      | .ok p => .ok (if c then (d :: p.1, p.2) else (p.1, d :: p.2))

/-- `_transfer_ownership` (dynamic model). -/
def transferOwnershipD (s : DynState) (tid : PyVal) (oldOwner newOwner : String) :
    Except String DynState :=
  match transferSplitD tid oldOwner s.active_detections with
  | .error e => .error e
  | .ok p =>
    .ok { p.1.foldl
        (fun st d => addSuppressedD st d oldOwner ("superseded_by:" ++ newOwner)) s with
      active_detections := p.2 }

/-- The accept step of `process_detections` (dynamic model); the key was
already validated as hashable by the earlier `in` test. -/
def acceptDetD (name : String) (s : DynState) (tid : PyVal) (d : DynDetection)
    (active : List DynDetection) : List DynDetection × DynState :=
  (active ++ [{ d with suppressed_by := some none }],
   { s with trace_ownership := fun k => if k = tid then some name else s.trace_ownership k })

/-- One iteration of the `process_detections` loop (dynamic model); the
`in`-test on the ownership dict checks hashability of the key before the
lookup result is used. -/
def processOneD (name : String) (acc : List DynDetection × DynState) (d : DynDetection) :
    Except String (List DynDetection × DynState) :=
  let active := acc.1
  let s := acc.2
  match d.trace_id with
  | none => .ok (active ++ [d], s)
  | some tid =>
    if truthyD tid = false then .ok (active ++ [d], s)
    else
      match isDetectorSuppressedD s name tid with
      | .error e => .error e
      | .ok sup =>
        if sup then .ok (active, addSuppressedD s d name "disabled_by_config")
        else
          match dictGetD s.trace_ownership tid with
          | .error e => .error e
          | .ok _ =>
            match s.trace_ownership tid with
            | some currentOwner =>
              if priorityOf name > priorityOf currentOwner then
                .ok (active,
                  addSuppressedD s d name ("higher_priority_detector:" ++ currentOwner))
              else
                match (if priorityOf name < priorityOf currentOwner then
                    transferOwnershipD s tid currentOwner name
                  else .ok s) with
                | .error e => .error e
                | .ok s1 => .ok (acceptDetD name s1 tid d active)
            | none => .ok (acceptDetD name s tid d active)

/-- The `for detection in detections` loop (dynamic model). -/
def processFoldD (name : String) :
    List DynDetection → List DynDetection × DynState →
      Except String (List DynDetection × DynState)
  | [], acc => .ok acc
  | d :: rest, acc =>
    match processOneD name acc d with
    | .error e => .error e
    | .ok acc2 => processFoldD name rest acc2

/-- `process_detections` (dynamic model). -/
def processDetectionsD (s : DynState) (name : String) (dets : List DynDetection) :
    Except String (List DynDetection × DynState) :=
  match processFoldD name dets ([], s) with
  | .error e => .error e
  | .ok r => .ok (r.1, { r.2 with active_detections := r.2.active_detections ++ r.1 })

/-- A sequence of `process_detections` calls (dynamic model); the first
exception propagates out, as in Python. -/
def runCallsD : DynState → List (String × List DynDetection) → Except String DynState
  | s, [] => .ok s
  | s, c :: cs =>
    match processDetectionsD s c.1 c.2 with
    | .error e => .error e
    | .ok r => runCallsD r.2 cs

/-!
## Basic lemmas about the engine's components
-/

theorem one_le_priorityOf (n : String) : 1 ≤ priorityOf n := by
  unfold priorityOf DETECTOR_PRIORITY
  repeat' split
  all_goals simp

theorem isKnown_cases (n : String) (h : isKnown n = true) :
    n = "RetryLoopDetector" ∨ n = "FallbackStormDetector" ∨
    n = "FallbackFailureDetector" ∨ n = "OverkillModelDetector" := by
  unfold isKnown DETECTOR_PRIORITY at h
  repeat' split at h
  · exact Or.inl (by assumption)
  · exact Or.inr (Or.inl (by assumption))
  · exact Or.inr (Or.inr (Or.inl (by assumption)))
  · exact Or.inr (Or.inr (Or.inr (by assumption)))
  · simp at h

theorem known_priority_inj (a b : String) (ha : isKnown a = true) (hb : isKnown b = true)
    (h : priorityOf a = priorityOf b) : a = b := by
  rcases isKnown_cases a ha with h1 | h1 | h1 | h1 <;>
    rcases isKnown_cases b hb with h2 | h2 | h2 | h2 <;>
      subst h1 <;> subst h2 <;> first | rfl | (exfalso; revert h; decide)

theorem isSubList_nil (hay : List Char) : isSubList [] hay = true := by
  induction hay with
  | nil => rfl
  | cons c rest ih => simp [isSubList, List.isPrefixOf]

theorem normType_none : normType none = [] := rfl

theorem normType_empty : normType (some "") = [] := rfl

theorem substr_markActive (d : Detection) :
    isSubList (normType (markActive d).dtype) (lowerChars (markActive d).producer.toList) =
    isSubList (normType d.dtype) (lowerChars d.producer.toList) := rfl

theorem addSuppressed_def (s : EngineState) (d : Detection) (name reason : String) :
    addSuppressed s d name reason =
      { s with suppressed_detections := s.suppressed_detections ++ [suppressedCopy d name reason] } := rfl

theorem foldl_addSuppressed (l : List Detection) (s : EngineState) (o r : String) :
    l.foldl (fun st d => addSuppressed st d o r) s =
      { s with suppressed_detections :=
          s.suppressed_detections ++ l.map (fun d => suppressedCopy d o r) } := by
  induction l generalizing s with
  | nil => simp
  | cons c rest ih =>
    rw [List.foldl_cons, ih]
    simp [addSuppressed, List.append_assoc]

theorem transferOwnership_eq (s : EngineState) (t oldOwner newOwner : String) :
    transferOwnership s t oldOwner newOwner =
      { s with
        active_detections := s.active_detections.filter (fun d => !(transferMatch t oldOwner d))
        suppressed_detections := s.suppressed_detections ++
          (s.active_detections.filter (transferMatch t oldOwner)).map
            (fun d => suppressedCopy d oldOwner ("superseded_by:" ++ newOwner)) } := by
  simp only [transferOwnership, foldl_addSuppressed]

/-!
## Branch equations for one loop iteration of `process_detections`
-/

theorem processOne_no_trace (name : String) (a : List Detection) (s : EngineState)
    (d : Detection) (h : d.trace_id = none) :
    processOne name (a, s) d = (a ++ [d], s) := by
  simp [processOne, h]

theorem processOne_empty_trace (name : String) (a : List Detection) (s : EngineState)
    (d : Detection) (h : d.trace_id = some "") :
    processOne name (a, s) d = (a ++ [d], s) := by
  simp [processOne, h]

theorem processOne_config (name : String) (a : List Detection) (s : EngineState)
    (d : Detection) (t : String) (h : d.trace_id = some t) (hne : t ≠ "")
    (hc : isDetectorSuppressed s name t = true) :
    processOne name (a, s) d = (a, addSuppressed s d name "disabled_by_config") := by
  simp [processOne, h, hne, hc]

theorem processOne_lower (name : String) (a : List Detection) (s : EngineState)
    (d : Detection) (t w : String) (h : d.trace_id = some t) (hne : t ≠ "")
    (hc : isDetectorSuppressed s name t = false)
    (hw : s.trace_ownership t = some w) (hp : priorityOf w < priorityOf name) :
    processOne name (a, s) d =
      (a, addSuppressed s d name ("higher_priority_detector:" ++ w)) := by
  simp [processOne, h, hne, hc, hw, hp]

theorem processOne_equal (name : String) (a : List Detection) (s : EngineState)
    (d : Detection) (t w : String) (h : d.trace_id = some t) (hne : t ≠ "")
    (hc : isDetectorSuppressed s name t = false)
    (hw : s.trace_ownership t = some w) (hp : priorityOf w = priorityOf name) :
    processOne name (a, s) d = acceptDet name s t d a := by
  simp [processOne, h, hne, hc, hw, hp, lt_irrefl]

theorem processOne_transfer (name : String) (a : List Detection) (s : EngineState)
    (d : Detection) (t w : String) (h : d.trace_id = some t) (hne : t ≠ "")
    (hc : isDetectorSuppressed s name t = false)
    (hw : s.trace_ownership t = some w) (hp : priorityOf name < priorityOf w) :
    processOne name (a, s) d = acceptDet name (transferOwnership s t w name) t d a := by
  have h1 : ¬ (priorityOf w < priorityOf name) := Nat.lt_asymm hp
  simp [processOne, h, hne, hc, hw, hp, h1]

theorem processOne_fresh (name : String) (a : List Detection) (s : EngineState)
    (d : Detection) (t : String) (h : d.trace_id = some t) (hne : t ≠ "")
    (hc : isDetectorSuppressed s name t = false)
    (hw : s.trace_ownership t = none) :
    processOne name (a, s) d = acceptDet name s t d a := by
  simp [processOne, h, hne, hc, hw]

/-- When an incoming detector strictly outranks the recorded owner, the
config check cannot fire: it requires the owner to be `RetryLoopDetector`,
which holds the minimal rank. -/
theorem config_check_false_of_outranked (s : EngineState) (name t w : String)
    (hw : s.trace_ownership t = some w) (hp : priorityOf name < priorityOf w) :
    isDetectorSuppressed s name t = false := by
  unfold isDetectorSuppressed
  have hne : s.trace_ownership t ≠ some "RetryLoopDetector" := by
    intro hcontra
    rw [hw] at hcontra
    have hwr : w = "RetryLoopDetector" := by injection hcontra
    subst hwr
    have h1 : priorityOf "RetryLoopDetector" = 1 := by decide
    have h2 := one_le_priorityOf name
    omega
  rw [decide_eq_false hne, Bool.and_false]

/-- Full description of a `process_detections` call with a single detection
that triggers an ownership transfer: the active detections of the claimed
trace that match the normalised-type filter move to suppressed, the others
stay, the incoming detection becomes active and owns the trace. -/
theorem processDetections_transfer_spec (s : EngineState) (name : String) (d : Detection)
    (t w : String) (h : d.trace_id = some t) (hne : t ≠ "")
    (hw : s.trace_ownership t = some w) (hp : priorityOf name < priorityOf w) :
    (processDetections s name [d]).1 = [markActive d]
    ∧ (processDetections s name [d]).2.active_detections =
        s.active_detections.filter (fun e => !(transferMatch t w e)) ++ [markActive d]
    ∧ (processDetections s name [d]).2.suppressed_detections =
        s.suppressed_detections ++
          (s.active_detections.filter (transferMatch t w)).map
            (fun e => suppressedCopy e w ("superseded_by:" ++ name))
    ∧ (processDetections s name [d]).2.trace_ownership t = some name
    ∧ (∀ t2, t2 ≠ t → (processDetections s name [d]).2.trace_ownership t2 = s.trace_ownership t2)
    ∧ (processDetections s name [d]).2.cfg = s.cfg := by
  have hc := config_check_false_of_outranked s name t w hw hp
  have key : List.foldl (processOne name) ([], s) [d] =
      acceptDet name (transferOwnership s t w name) t d [] := by
    simp only [List.foldl_cons, List.foldl_nil]
    exact processOne_transfer name [] s d t w h hne hc hw hp
  refine ⟨?_, ?_, ?_, ?_, ?_, ?_⟩
  · simp [processDetections, key, acceptDet]
  · simp [processDetections, key, acceptDet, transferOwnership_eq]
  · simp [processDetections, key, acceptDet, transferOwnership_eq]
  · simp [processDetections, key, acceptDet, transferOwnership_eq]
  · intro t2 ht2
    simp [processDetections, key, acceptDet, transferOwnership_eq, ht2]
  · simp [processDetections, key, acceptDet, transferOwnership_eq]

/-!
## Concrete scenarios used by witnesses and counterexamples
-/

/-- A raw detection as a detector hands it to the engine: payload fields
only, no suppression metadata. -/
def mkDet (i : Nat) (tid ty : Option String) (p : String) : Detection :=
  ⟨i, tid, ty, p, none, none, none⟩

/-- A `FallbackFailureDetector` detection for trace `t` whose `type` field is
the unrelated string `"x"`, so that its normalised type is not a substring of
`"fallbackfailuredetector"`. -/
def oddTypeDet : Detection := mkDet 0 (some "t") (some "x") "FallbackFailureDetector"

/-- Run: `FallbackFailureDetector` claims trace `t` with `oddTypeDet`, then
`RetryLoopDetector` claims the same trace, triggering an ownership transfer
whose normalised-type filter does not match `oddTypeDet`. -/
def typeMismatchRun : EngineState :=
  runCalls (initState (fun _ => false))
    [("FallbackFailureDetector", [oddTypeDet]),
     ("RetryLoopDetector", [mkDet 1 (some "t") (some "retry_loop") "RetryLoopDetector"])]

/-- C2 (amended): if a trace owned by `w` receives a detection from a
strictly higher-priority detector `name`, then exactly those active
detections of that trace whose normalised `type` is a substring of the old
owner's lowercased name move to the suppressed set with reason
`superseded_by:<name>` (the others remain active), the incoming detection
becomes active, and the ownership table entry becomes `name`. -/
theorem priority_transfer_amended (s : EngineState) (name : String) (d : Detection)
    (t w : String) (h : d.trace_id = some t) (hne : t ≠ "")
    (hw : s.trace_ownership t = some w) (hp : priorityOf name < priorityOf w) :
    (processDetections s name [d]).1 = [markActive d]
    ∧ (processDetections s name [d]).2.active_detections =
        s.active_detections.filter (fun e => !(transferMatch t w e)) ++ [markActive d]
    ∧ (processDetections s name [d]).2.suppressed_detections =
        s.suppressed_detections ++
          (s.active_detections.filter (transferMatch t w)).map
            (fun e => suppressedCopy e w ("superseded_by:" ++ name))
    ∧ (processDetections s name [d]).2.trace_ownership t = some name
    ∧ (∀ t2, t2 ≠ t → (processDetections s name [d]).2.trace_ownership t2 = s.trace_ownership t2) :=
  have h5 := processDetections_transfer_spec s name d t w h hne hw hp
  ⟨h5.1, h5.2.1, h5.2.2.1, h5.2.2.2.1, h5.2.2.2.2.1⟩

/-- State for the C2 witness: `FallbackFailureDetector` owns trace `t2` with
one active, well-typed detection. -/
def w2State : EngineState :=
  ⟨fun _ => false,
   fun k => if k = "t2" then some "FallbackFailureDetector" else none,
   [],
   [markActive (mkDet 0 (some "t2") (some "fallback_failure") "FallbackFailureDetector")]⟩

/-- Incoming detection for the C2 witness. -/
def w2Det : Detection := mkDet 1 (some "t2") (some "retry_loop") "RetryLoopDetector"

/-- C2 witness: the spec's own example (FallbackFailure claims `t2` first,
RetryLoop claims it afterwards), with every hypothesis discharged. -/
theorem priority_transfer_amended_witness :
    (w2Det.trace_id = some "t2" ∧ "t2" ≠ ""
      ∧ w2State.trace_ownership "t2" = some "FallbackFailureDetector"
      ∧ priorityOf "RetryLoopDetector" < priorityOf "FallbackFailureDetector")
    ∧ ((processDetections w2State "RetryLoopDetector" [w2Det]).1 = [markActive w2Det]
    ∧ (processDetections w2State "RetryLoopDetector" [w2Det]).2.active_detections =
        w2State.active_detections.filter
          (fun e => !(transferMatch "t2" "FallbackFailureDetector" e)) ++ [markActive w2Det]
    ∧ (processDetections w2State "RetryLoopDetector" [w2Det]).2.suppressed_detections =
        w2State.suppressed_detections ++
          (w2State.active_detections.filter (transferMatch "t2" "FallbackFailureDetector")).map
            (fun e => suppressedCopy e "FallbackFailureDetector"
              ("superseded_by:" ++ "RetryLoopDetector"))
    ∧ (processDetections w2State "RetryLoopDetector" [w2Det]).2.trace_ownership "t2" =
        some "RetryLoopDetector"
    ∧ (∀ t2, t2 ≠ "t2" →
        (processDetections w2State "RetryLoopDetector" [w2Det]).2.trace_ownership t2 =
          w2State.trace_ownership t2)) :=
  ⟨⟨by decide, by decide, by decide, by decide⟩,
   priority_transfer_amended w2State "RetryLoopDetector" w2Det "t2" "FallbackFailureDetector"
     (by decide) (by decide) (by decide) (by decide)⟩

/-- C2 counterexample: in `typeMismatchRun` the trace is first claimed by the
lower-priority `FallbackFailureDetector` and then by the higher-priority
`RetryLoopDetector`, yet the lower-priority detector's active detection is
not moved to the suppressed set (which stays empty): its normalised type
`"x"` fails the fuzzy match of `_transfer_ownership`. -/
theorem priority_transfer_cex :
    typeMismatchRun.trace_ownership "t" = some "RetryLoopDetector"
    ∧ priorityOf "RetryLoopDetector" < priorityOf "FallbackFailureDetector"
    ∧ typeMismatchRun.suppressed_detections = []
    ∧ markActive oddTypeDet ∈ typeMismatchRun.active_detections := by
  refine ⟨by decide, by decide, by decide, by decide⟩

/-- C10: during an ownership transfer for a trace, an active detection of
that trace whose `type` field is absent or the empty string always matches
the old-owner filter (the normalised empty string is a substring of every
owner name), so it is moved to the suppressed set with reason
`superseded_by:<new owner>` — whatever detector produced it. -/
theorem empty_type_always_transferred (s : EngineState) (name : String) (d e : Detection)
    (t w : String) (h : d.trace_id = some t) (hne : t ≠ "")
    (hw : s.trace_ownership t = some w) (hp : priorityOf name < priorityOf w)
    (he : e ∈ s.active_detections) (het : e.trace_id = some t)
    (hty : e.dtype = none ∨ e.dtype = some "") (hdid : e.did ≠ d.did) :
    transferMatch t w e = true
    ∧ suppressedCopy e w ("superseded_by:" ++ name) ∈
        (processDetections s name [d]).2.suppressed_detections
    ∧ e ∉ (processDetections s name [d]).2.active_detections := by
  have hnorm : normType e.dtype = [] := by
    rcases hty with h1 | h1 <;> rw [h1]
    · exact normType_none
    · exact normType_empty
  have hm : transferMatch t w e = true := by
    unfold transferMatch
    rw [hnorm, isSubList_nil, het]
    simp
  have spec := processDetections_transfer_spec s name d t w h hne hw hp
  refine ⟨hm, ?_, ?_⟩
  · rw [spec.2.2.1]
    refine List.mem_append_right _ ?_
    exact List.mem_map_of_mem _ (List.mem_filter.2 ⟨he, hm⟩)
  · rw [spec.2.1]
    intro hmem
    rcases List.mem_append.1 hmem with h1 | h1
    · have h2 := (List.mem_filter.1 h1).2
      rw [hm] at h2
      exact absurd h2 (by decide)
    · have h2 : e = markActive d := List.mem_singleton.1 h1
      exact hdid (by rw [h2]; rfl)

/-- State for the C10 witness: `FallbackStormDetector` owns trace `t3`, and a
typeless active detection produced by an unrelated detector sits on the same
trace. -/
def w10State : EngineState :=
  ⟨fun _ => false,
   fun k => if k = "t3" then some "FallbackStormDetector" else none,
   [],
   [⟨5, some "t3", none, "SomebodyElse", some none, none, none⟩]⟩

/-- Incoming detection for the C10 witness. -/
def w10Det : Detection := mkDet 0 (some "t3") (some "retry_loop") "RetryLoopDetector"

/-- The typeless bystander detection of the C10 witness. -/
def w10Bystander : Detection := ⟨5, some "t3", none, "SomebodyElse", some none, none, none⟩

/-- C10 witness: the typeless bystander detection — produced by neither
detector involved in the transfer — is swept into the suppressed set. -/
theorem empty_type_always_transferred_witness :
    (w10Det.trace_id = some "t3" ∧ "t3" ≠ ""
      ∧ w10State.trace_ownership "t3" = some "FallbackStormDetector"
      ∧ priorityOf "RetryLoopDetector" < priorityOf "FallbackStormDetector"
      ∧ w10Bystander ∈ w10State.active_detections
      ∧ w10Bystander.trace_id = some "t3"
      ∧ (w10Bystander.dtype = none ∨ w10Bystander.dtype = some "")
      ∧ w10Bystander.did ≠ w10Det.did)
    ∧ (transferMatch "t3" "FallbackStormDetector" w10Bystander = true
    ∧ suppressedCopy w10Bystander "FallbackStormDetector"
        ("superseded_by:" ++ "RetryLoopDetector") ∈
        (processDetections w10State "RetryLoopDetector" [w10Det]).2.suppressed_detections
    ∧ w10Bystander ∉
        (processDetections w10State "RetryLoopDetector" [w10Det]).2.active_detections) :=
  ⟨⟨by decide, by decide, by decide, by decide, by decide, by decide, by decide, by decide⟩,
   empty_type_always_transferred w10State "RetryLoopDetector" w10Det w10Bystander
     "t3" "FallbackStormDetector" (by decide) (by decide) (by decide) (by decide)
     (by decide) (by decide) (by decide) (by decide)⟩

theorem processDetections_single (s : EngineState) (name : String) (d : Detection) :
    processDetections s name [d] =
      ((processOne name ([], s) d).1,
       { (processOne name ([], s) d).2 with
          active_detections :=
            (processOne name ([], s) d).2.active_detections ++ (processOne name ([], s) d).1 }) :=
  rfl

/-- C5 (amended): a detection arriving for a trace whose owner strictly
outranks the incoming detector is suppressed with reason
`higher_priority_detector:<owner>`, is not added to the active list, and
leaves the ownership table unchanged — provided the configuration check does
not fire first (when it does, the recorded reason is `disabled_by_config`
instead). -/
theorem downgrade_suppression_amended (s : EngineState) (name : String) (d : Detection)
    (t w : String) (h : d.trace_id = some t) (hne : t ≠ "")
    (hw : s.trace_ownership t = some w) (hp : priorityOf w < priorityOf name)
    (hc : isDetectorSuppressed s name t = false) :
    (processDetections s name [d]).1 = []
    ∧ (processDetections s name [d]).2.suppressed_detections =
        s.suppressed_detections ++ [suppressedCopy d name ("higher_priority_detector:" ++ w)]
    ∧ (processDetections s name [d]).2.active_detections = s.active_detections
    ∧ (processDetections s name [d]).2.trace_ownership = s.trace_ownership := by
  have key : processOne name ([], s) d =
      ([], addSuppressed s d name ("higher_priority_detector:" ++ w)) :=
    processOne_lower name [] s d t w h hne hc hw hp
  rw [processDetections_single, key]
  refine ⟨rfl, ?_, ?_, rfl⟩
  · simp [addSuppressed]
  · simp [addSuppressed]

/-- Incoming detection for the C5 witness. -/
def w5Det : Detection := mkDet 1 (some "t1") (some "fallback_storm") "FallbackStormDetector"

/-- State for the C5 witness: `RetryLoopDetector` owns trace `t1`, no
configuration rules are active. -/
def w5State : EngineState :=
  ⟨fun _ => false,
   fun k => if k = "t1" then some "RetryLoopDetector" else none,
   [],
   [markActive (mkDet 0 (some "t1") (some "retry_loop") "RetryLoopDetector")]⟩

/-- C5 witness: the spec's own example (FallbackStorm arrives on a trace
owned by RetryLoop) with every hypothesis discharged. -/
theorem downgrade_suppression_amended_witness :
    (w5Det.trace_id = some "t1" ∧ "t1" ≠ ""
      ∧ w5State.trace_ownership "t1" = some "RetryLoopDetector"
      ∧ priorityOf "RetryLoopDetector" < priorityOf "FallbackStormDetector"
      ∧ isDetectorSuppressed w5State "FallbackStormDetector" "t1" = false)
    ∧ ((processDetections w5State "FallbackStormDetector" [w5Det]).1 = []
    ∧ (processDetections w5State "FallbackStormDetector" [w5Det]).2.suppressed_detections =
        w5State.suppressed_detections ++
          [suppressedCopy w5Det "FallbackStormDetector"
            ("higher_priority_detector:" ++ "RetryLoopDetector")]
    ∧ (processDetections w5State "FallbackStormDetector" [w5Det]).2.active_detections =
        w5State.active_detections
    ∧ (processDetections w5State "FallbackStormDetector" [w5Det]).2.trace_ownership =
        w5State.trace_ownership) :=
  ⟨⟨by decide, by decide, by decide, by decide, by decide⟩,
   downgrade_suppression_amended w5State "FallbackStormDetector" w5Det "t1" "RetryLoopDetector"
     (by decide) (by decide) (by decide) (by decide) (by decide)⟩

/-- Run for the C5 counterexample: `suppress_if_retry_loop` is set for the
`fallbackstorm` config key, RetryLoop owns `t1`, then FallbackStorm arrives. -/
def cex5Run : EngineState :=
  runCalls (initState (fun k => k == "fallbackstorm"))
    [("RetryLoopDetector", [mkDet 0 (some "t1") (some "retry_loop") "RetryLoopDetector"]),
     ("FallbackStormDetector", [mkDet 1 (some "t1") (some "fallback_storm") "FallbackStormDetector"])]

/-- C5 counterexample: the trace's owner (`RetryLoopDetector`, rank 1)
outranks the incoming `FallbackStormDetector` (rank 2), yet the detection is
recorded with reason `disabled_by_config`, not
`higher_priority_detector:RetryLoopDetector`: the configuration check runs
before the priority check. -/
theorem downgrade_suppression_cex :
    cex5Run.trace_ownership "t1" = some "RetryLoopDetector"
    ∧ priorityOf "RetryLoopDetector" < priorityOf "FallbackStormDetector"
    ∧ cex5Run.suppressed_detections.map (fun e => e.suppression_reason) =
        [some "disabled_by_config"]
    ∧ ∀ e ∈ cex5Run.suppressed_detections,
        e.suppression_reason ≠ some ("higher_priority_detector:" ++ "RetryLoopDetector") := by
  refine ⟨by decide, by decide, by decide, by decide⟩

/-- C6: when the configuration sets `suppress_if_retry_loop` for the
incoming detector's config key and the trace is currently owned by
`RetryLoopDetector`, the detection is suppressed with reason
`disabled_by_config`, stays out of the active list, and leaves ownership
unchanged — no hypothesis on priority ranks is needed. -/
theorem config_suppression (s : EngineState) (name : String) (d : Detection)
    (t : String) (hflag : s.cfg (configKey name) = true)
    (hown : s.trace_ownership t = some "RetryLoopDetector")
    (hd : d.trace_id = some t) (hne : t ≠ "") :
    (processDetections s name [d]).1 = []
    ∧ (processDetections s name [d]).2.suppressed_detections =
        s.suppressed_detections ++ [suppressedCopy d name "disabled_by_config"]
    ∧ (processDetections s name [d]).2.active_detections = s.active_detections
    ∧ (processDetections s name [d]).2.trace_ownership = s.trace_ownership := by
  have hc : isDetectorSuppressed s name t = true := by
    unfold isDetectorSuppressed
    rw [hflag, hown]
    simp
  have key : processOne name ([], s) d = ([], addSuppressed s d name "disabled_by_config") :=
    processOne_config name [] s d t hd hne hc
  rw [processDetections_single, key]
  refine ⟨rfl, ?_, ?_, rfl⟩
  · simp [addSuppressed]
  · simp [addSuppressed]

/-- State for the C6 witness: config flag set for `fallbackstorm`, RetryLoop
owns trace `t1`. -/
def w6State : EngineState :=
  ⟨fun k => k == "fallbackstorm",
   fun k => if k = "t1" then some "RetryLoopDetector" else none,
   [],
   [markActive (mkDet 0 (some "t1") (some "retry_loop") "RetryLoopDetector")]⟩

/-- Incoming detection for the C6 witness. -/
def w6Det : Detection := mkDet 1 (some "t1") (some "fallback_storm") "FallbackStormDetector"

/-- C6 witness: concrete config suppression with every hypothesis
discharged. -/
theorem config_suppression_witness :
    (w6State.cfg (configKey "FallbackStormDetector") = true
      ∧ w6State.trace_ownership "t1" = some "RetryLoopDetector"
      ∧ w6Det.trace_id = some "t1" ∧ "t1" ≠ "")
    ∧ ((processDetections w6State "FallbackStormDetector" [w6Det]).1 = []
    ∧ (processDetections w6State "FallbackStormDetector" [w6Det]).2.suppressed_detections =
        w6State.suppressed_detections ++
          [suppressedCopy w6Det "FallbackStormDetector" "disabled_by_config"]
    ∧ (processDetections w6State "FallbackStormDetector" [w6Det]).2.active_detections =
        w6State.active_detections
    ∧ (processDetections w6State "FallbackStormDetector" [w6Det]).2.trace_ownership =
        w6State.trace_ownership) :=
  ⟨⟨by decide, by decide, by decide, by decide⟩,
   config_suppression w6State "FallbackStormDetector" w6Det "t1"
     (by decide) (by decide) (by decide) (by decide)⟩

/-!
## Conservation of detections (partition property)
-/

/-- The multiset of detection identities in a list. -/
def coreMass (l : List Detection) : Multiset (Nat × Option String × Option String × String) :=
  (l.map Detection.core : Multiset _)

/-- The multiset of detection identities held by an engine state, active and
suppressed together. -/
def stateMass (s : EngineState) :
    Multiset (Nat × Option String × Option String × String) :=
  coreMass s.active_detections + coreMass s.suppressed_detections

theorem core_suppressedCopy (d : Detection) (n r : String) :
    (suppressedCopy d n r).core = d.core := rfl

theorem core_markActive (d : Detection) : (markActive d).core = d.core := rfl

theorem coreMass_append (l1 l2 : List Detection) :
    coreMass (l1 ++ l2) = coreMass l1 + coreMass l2 := by
  simp [coreMass]

theorem coreMass_filter_partition (p : Detection → Bool) (l : List Detection) :
    coreMass (l.filter p) + coreMass (l.filter (fun x => !(p x))) = coreMass l := by
  have hperm : (l.filter p ++ l.filter (fun x => !(p x))).Perm l :=
    List.filter_append_perm p l
  have h := Multiset.coe_eq_coe.2 (hperm.map Detection.core)
  simpa [coreMass, coreMass_append] using h

theorem coreMass_map_suppressedCopy (l : List Detection) (o r : String) :
    coreMass (l.map (fun d => suppressedCopy d o r)) = coreMass l := by
  unfold coreMass
  rw [List.map_map]
  have hfun : (Detection.core ∘ fun d => suppressedCopy d o r) = Detection.core := by
    funext d
    rfl
  rw [hfun]

theorem stateMass_addSuppressed (s : EngineState) (d : Detection) (n r : String) :
    stateMass (addSuppressed s d n r) = stateMass s + coreMass [d] := by
  show coreMass s.active_detections + coreMass (s.suppressed_detections ++ [suppressedCopy d n r])
      = stateMass s + coreMass [d]
  rw [coreMass_append, show coreMass [suppressedCopy d n r] = coreMass [d] from rfl]
  unfold stateMass
  abel

theorem stateMass_setOwn (s : EngineState) (g : String → Option String) :
    stateMass { s with trace_ownership := g } = stateMass s := rfl

theorem stateMass_transfer (s : EngineState) (t w n : String) :
    stateMass (transferOwnership s t w n) = stateMass s := by
  rw [transferOwnership_eq]
  show coreMass (s.active_detections.filter (fun e => !(transferMatch t w e)))
      + coreMass (s.suppressed_detections ++
          (s.active_detections.filter (transferMatch t w)).map
            (fun e => suppressedCopy e w ("superseded_by:" ++ n)))
      = stateMass s
  rw [coreMass_append, coreMass_map_suppressedCopy]
  unfold stateMass
  rw [← coreMass_filter_partition (transferMatch t w) s.active_detections]
  abel

theorem mass_acceptDet (nm : String) (s : EngineState) (t : String) (d : Detection)
    (a : List Detection) :
    coreMass (acceptDet nm s t d a).1 + stateMass (acceptDet nm s t d a).2
      = coreMass a + stateMass s + coreMass [d] := by
  show coreMass (a ++ [markActive d])
      + stateMass { s with trace_ownership :=
          fun k => (if k = t then some nm else s.trace_ownership k) }
      = coreMass a + stateMass s + coreMass [d]
  rw [coreMass_append, show coreMass [markActive d] = coreMass [d] from rfl, stateMass_setOwn]
  abel

theorem mass_processOne (name : String) (a : List Detection) (s : EngineState)
    (d : Detection) :
    coreMass (processOne name (a, s) d).1 + stateMass (processOne name (a, s) d).2
      = coreMass a + stateMass s + coreMass [d] := by
  rcases hd : d.trace_id with _ | t
  · rw [processOne_no_trace name a s d hd]
    show coreMass (a ++ [d]) + stateMass s = coreMass a + stateMass s + coreMass [d]
    rw [coreMass_append]
    abel
  · by_cases hte : t = ""
    · subst hte
      rw [processOne_empty_trace name a s d hd]
      show coreMass (a ++ [d]) + stateMass s = coreMass a + stateMass s + coreMass [d]
      rw [coreMass_append]
      abel
    · rcases hb : isDetectorSuppressed s name t with _ | _
      · rcases ho : s.trace_ownership t with _ | w
        · rw [processOne_fresh name a s d t hd hte hb ho, mass_acceptDet]
        · rcases Nat.lt_trichotomy (priorityOf name) (priorityOf w) with hp | hp | hp
          · rw [processOne_transfer name a s d t w hd hte hb ho hp, mass_acceptDet,
              stateMass_transfer]
          · rw [processOne_equal name a s d t w hd hte hb ho hp.symm, mass_acceptDet]
          · rw [processOne_lower name a s d t w hd hte hb ho hp]
            show coreMass a
                + stateMass (addSuppressed s d name ("higher_priority_detector:" ++ w))
                = coreMass a + stateMass s + coreMass [d]
            rw [stateMass_addSuppressed]
            abel
      · rw [processOne_config name a s d t hd hte hb]
        show coreMass a + stateMass (addSuppressed s d name "disabled_by_config")
            = coreMass a + stateMass s + coreMass [d]
        rw [stateMass_addSuppressed]
        abel

theorem mass_foldl (name : String) (dets : List Detection) (a : List Detection)
    (s : EngineState) :
    coreMass (dets.foldl (processOne name) (a, s)).1
      + stateMass (dets.foldl (processOne name) (a, s)).2
      = coreMass a + stateMass s + coreMass dets := by
  induction dets generalizing a s with
  | nil =>
    show coreMass a + stateMass s = coreMass a + stateMass s + coreMass []
    rw [show coreMass ([] : List Detection) = 0 from rfl, add_zero]
  | cons c rest ih =>
    rcases hps : processOne name (a, s) c with ⟨a1, s1⟩
    rw [List.foldl_cons, hps, ih]
    have h1 := mass_processOne name a s c
    rw [hps] at h1
    have h2 : coreMass a1 + stateMass s1 = coreMass a + stateMass s + coreMass [c] := h1
    rw [h2, show coreMass (c :: rest) = coreMass [c] + coreMass rest from by simp [coreMass]]
    abel

theorem stateMass_processDetections (s : EngineState) (name : String)
    (dets : List Detection) :
    stateMass (processDetections s name dets).2 = stateMass s + coreMass dets := by
  have h := mass_foldl name dets [] s
  rcases hps : dets.foldl (processOne name) ([], s) with ⟨a1, s1⟩
  rw [hps] at h
  have h1 : coreMass a1 + stateMass s1
      = coreMass ([] : List Detection) + stateMass s + coreMass dets := h
  rw [show coreMass ([] : List Detection) = 0 from rfl, zero_add] at h1
  have h2 : (processDetections s name dets).2 =
      { s1 with active_detections := s1.active_detections ++ a1 } := by
    unfold processDetections
    rw [hps]
  rw [h2]
  show coreMass (s1.active_detections ++ a1) + coreMass s1.suppressed_detections
      = stateMass s + coreMass dets
  rw [coreMass_append]
  have h3 : coreMass s1.active_detections + coreMass a1 + coreMass s1.suppressed_detections
      = coreMass a1 + stateMass s1 := by
    unfold stateMass
    abel
  rw [h3, h1]

/-- All raw detections fed across a sequence of calls, in order. -/
def fedDetections (calls : List (String × List Detection)) : List Detection :=
  calls.foldr (fun c r => c.2 ++ r) []

theorem stateMass_runCalls (s : EngineState) (calls : List (String × List Detection)) :
    stateMass (runCalls s calls) = stateMass s + coreMass (fedDetections calls) := by
  induction calls generalizing s with
  | nil => simp [runCalls, fedDetections, coreMass]
  | cons c cs ih =>
    have h1 : runCalls s (c :: cs) = runCalls (processDetections s c.1 c.2).2 cs := rfl
    rw [h1, ih, stateMass_processDetections]
    have h2 : fedDetections (c :: cs) = c.2 ++ fedDetections cs := rfl
    rw [h2, coreMass_append]
    abel

/-- C3: after any sequence of `process_detections` calls on a fresh engine,
the multiset of detection identities in the active list plus the suppressed
list equals the multiset of all raw detections fed in: no detection is lost
and none is duplicated.  (Identity is the ghost tag plus the payload fields;
`_add_suppressed_detection` stores a `copy()` carrying the same identity.) -/
theorem partition_property (cfg : String → Bool) (calls : List (String × List Detection)) :
    coreMass (runCalls (initState cfg) calls).active_detections
      + coreMass (runCalls (initState cfg) calls).suppressed_detections =
    coreMass (fedDetections calls) := by
  have h := stateMass_runCalls (initState cfg) calls
  simp only [stateMass] at h
  simpa [initState, coreMass] using h

/-!
## Monotonicity of the suppressed set
-/

theorem processOne_suppressed_extend (name : String) (a : List Detection) (s : EngineState)
    (d : Detection) :
    ∃ tl, (processOne name (a, s) d).2.suppressed_detections =
      s.suppressed_detections ++ tl := by
  rcases hd : d.trace_id with _ | t
  · rw [processOne_no_trace name a s d hd]
    exact ⟨[], by simp⟩
  · by_cases hte : t = ""
    · subst hte
      rw [processOne_empty_trace name a s d hd]
      exact ⟨[], by simp⟩
    · rcases hb : isDetectorSuppressed s name t with _ | _
      · rcases ho : s.trace_ownership t with _ | w
        · rw [processOne_fresh name a s d t hd hte hb ho]
          exact ⟨[], by simp [acceptDet]⟩
        · rcases Nat.lt_trichotomy (priorityOf name) (priorityOf w) with hp | hp | hp
          · refine ⟨(s.active_detections.filter (transferMatch t w)).map
              (fun e => suppressedCopy e w ("superseded_by:" ++ name)), ?_⟩
            rw [processOne_transfer name a s d t w hd hte hb ho hp]
            show (transferOwnership s t w name).suppressed_detections = _
            rw [transferOwnership_eq]
          · rw [processOne_equal name a s d t w hd hte hb ho hp.symm]
            exact ⟨[], by simp [acceptDet]⟩
          · rw [processOne_lower name a s d t w hd hte hb ho hp]
            exact ⟨[suppressedCopy d name ("higher_priority_detector:" ++ w)], rfl⟩
      · rw [processOne_config name a s d t hd hte hb]
        exact ⟨[suppressedCopy d name "disabled_by_config"], rfl⟩

theorem foldl_suppressed_extend (name : String) (dets : List Detection)
    (a : List Detection) (s : EngineState) :
    ∃ tl, (dets.foldl (processOne name) (a, s)).2.suppressed_detections =
      s.suppressed_detections ++ tl := by
  induction dets generalizing a s with
  | nil => exact ⟨[], by simp⟩
  | cons c rest ih =>
    rcases hps : processOne name (a, s) c with ⟨a1, s1⟩
    rw [List.foldl_cons, hps]
    obtain ⟨tl1, h1⟩ := ih a1 s1
    obtain ⟨tl0, h0⟩ := processOne_suppressed_extend name a s c
    rw [hps] at h0
    refine ⟨tl0 ++ tl1, ?_⟩
    rw [h1]
    show s1.suppressed_detections ++ tl1 = s.suppressed_detections ++ (tl0 ++ tl1)
    have h0s : s1.suppressed_detections = s.suppressed_detections ++ tl0 := h0
    rw [h0s, List.append_assoc]

theorem processDetections_suppressed_extend (s : EngineState) (name : String)
    (dets : List Detection) :
    ∃ tl, (processDetections s name dets).2.suppressed_detections =
      s.suppressed_detections ++ tl := by
  obtain ⟨tl, h⟩ := foldl_suppressed_extend name dets [] s
  exact ⟨tl, h⟩

theorem runCalls_suppressed_extend (s : EngineState) (calls : List (String × List Detection)) :
    ∃ tl, (runCalls s calls).suppressed_detections = s.suppressed_detections ++ tl := by
  induction calls generalizing s with
  | nil => exact ⟨[], by simp [runCalls]⟩
  | cons c cs ih =>
    have h1 : runCalls s (c :: cs) = runCalls (processDetections s c.1 c.2).2 cs := rfl
    obtain ⟨tl1, hA⟩ := processDetections_suppressed_extend s c.1 c.2
    obtain ⟨tl2, hB⟩ := ih (processDetections s c.1 c.2).2
    exact ⟨tl1 ++ tl2, by rw [h1, hB, hA, List.append_assoc]⟩

theorem processOne_active_sub (name : String) (a : List Detection) (s : EngineState)
    (d : Detection) (x : Detection)
    (hx : x ∈ (processOne name (a, s) d).2.active_detections) :
    x ∈ s.active_detections := by
  rcases hd : d.trace_id with _ | t
  · rw [processOne_no_trace name a s d hd] at hx
    exact hx
  · by_cases hte : t = ""
    · subst hte
      rw [processOne_empty_trace name a s d hd] at hx
      exact hx
    · rcases hb : isDetectorSuppressed s name t with _ | _
      · rcases ho : s.trace_ownership t with _ | w
        · rw [processOne_fresh name a s d t hd hte hb ho] at hx
          exact hx
        · rcases Nat.lt_trichotomy (priorityOf name) (priorityOf w) with hp | hp | hp
          · rw [processOne_transfer name a s d t w hd hte hb ho hp] at hx
            have hx2 : x ∈ (transferOwnership s t w name).active_detections := hx
            rw [transferOwnership_eq] at hx2
            exact (List.mem_filter.1 hx2).1
          · rw [processOne_equal name a s d t w hd hte hb ho hp.symm] at hx
            exact hx
          · rw [processOne_lower name a s d t w hd hte hb ho hp] at hx
            exact hx
      · rw [processOne_config name a s d t hd hte hb] at hx
        exact hx

theorem processOne_local_origin (name : String) (a : List Detection) (s : EngineState)
    (d : Detection) (x : Detection) (hx : x ∈ (processOne name (a, s) d).1) :
    x ∈ a ∨ x = d ∨ x = markActive d := by
  rcases hd : d.trace_id with _ | t
  · rw [processOne_no_trace name a s d hd] at hx
    rcases List.mem_append.1 hx with h | h
    · exact Or.inl h
    · exact Or.inr (Or.inl (List.mem_singleton.1 h))
  · by_cases hte : t = ""
    · subst hte
      rw [processOne_empty_trace name a s d hd] at hx
      rcases List.mem_append.1 hx with h | h
      · exact Or.inl h
      · exact Or.inr (Or.inl (List.mem_singleton.1 h))
    · rcases hb : isDetectorSuppressed s name t with _ | _
      · rcases ho : s.trace_ownership t with _ | w
        · rw [processOne_fresh name a s d t hd hte hb ho] at hx
          rcases List.mem_append.1 hx with h | h
          · exact Or.inl h
          · exact Or.inr (Or.inr (List.mem_singleton.1 h))
        · rcases Nat.lt_trichotomy (priorityOf name) (priorityOf w) with hp | hp | hp
          · rw [processOne_transfer name a s d t w hd hte hb ho hp] at hx
            rcases List.mem_append.1 hx with h | h
            · exact Or.inl h
            · exact Or.inr (Or.inr (List.mem_singleton.1 h))
          · rw [processOne_equal name a s d t w hd hte hb ho hp.symm] at hx
            rcases List.mem_append.1 hx with h | h
            · exact Or.inl h
            · exact Or.inr (Or.inr (List.mem_singleton.1 h))
          · rw [processOne_lower name a s d t w hd hte hb ho hp] at hx
            exact Or.inl hx
      · rw [processOne_config name a s d t hd hte hb] at hx
        exact Or.inl hx

theorem foldl_active_origin (name : String) (dets : List Detection)
    (a : List Detection) (s : EngineState) (x : Detection) :
    (x ∈ (dets.foldl (processOne name) (a, s)).1 →
      x ∈ a ∨ ∃ e ∈ dets, x = e ∨ x = markActive e)
    ∧ (x ∈ (dets.foldl (processOne name) (a, s)).2.active_detections →
      x ∈ s.active_detections) := by
  induction dets generalizing a s with
  | nil =>
    exact ⟨fun h => Or.inl h, fun h => h⟩
  | cons c rest ih =>
    rcases hps : processOne name (a, s) c with ⟨a1, s1⟩
    rw [List.foldl_cons, hps]
    constructor
    · intro hx
      rcases (ih a1 s1).1 hx with h | ⟨e, he, hor⟩
      · have h1 : x ∈ (processOne name (a, s) c).1 := by rw [hps]; exact h
        rcases processOne_local_origin name a s c x h1 with h2 | h2
        · exact Or.inl h2
        · exact Or.inr ⟨c, List.mem_cons_self c rest, h2⟩
      · exact Or.inr ⟨e, List.mem_cons_of_mem c he, hor⟩
    · intro hx
      have h1 : x ∈ s1.active_detections := (ih a1 s1).2 hx
      have h2 : x ∈ (processOne name (a, s) c).2.active_detections := by
        rw [hps]
        exact h1
      exact processOne_active_sub name a s c x h2

/-- C4: the suppressed set is append-only — any sequence of further
`process_detections` calls only extends it, so a suppressed detection is
never removed; and the engine never moves a suppressed detection back:
every detection in the active list after a call was either already active
before the call or is one of the call's input detections (possibly with its
`suppressed_by` key set to `None`). -/
theorem suppression_monotonic :
    (∀ (s : EngineState) (calls : List (String × List Detection)),
      s.suppressed_detections <+: (runCalls s calls).suppressed_detections)
    ∧ (∀ (s : EngineState) (name : String) (dets : List Detection) (x : Detection),
      x ∈ (processDetections s name dets).2.active_detections →
      x ∈ s.active_detections ∨ ∃ e ∈ dets, x = e ∨ x = markActive e) := by
  constructor
  · intro s calls
    obtain ⟨tl, h⟩ := runCalls_suppressed_extend s calls
    exact ⟨tl, h.symm⟩
  · intro s name dets x hx
    rcases hps : dets.foldl (processOne name) ([], s) with ⟨a1, s1⟩
    have h1 : (processDetections s name dets).2.active_detections =
        s1.active_detections ++ a1 := by
      unfold processDetections
      rw [hps]
    rw [h1] at hx
    rcases List.mem_append.1 hx with h | h
    · have h2 : x ∈ (dets.foldl (processOne name) ([], s)).2.active_detections := by
        rw [hps]
        exact h
      exact Or.inl ((foldl_active_origin name dets [] s x).2 h2)
    · have h2 : x ∈ (dets.foldl (processOne name) ([], s)).1 := by
        rw [hps]
        exact h
      rcases (foldl_active_origin name dets [] s x).1 h2 with h3 | h3
      · exact absurd h3 (List.not_mem_nil x)
      · exact Or.inr h3

/-- State for the C4 witness: one suppressed and one active detection
already present. -/
def w4State : EngineState :=
  ⟨fun _ => false,
   fun k => if k = "t4" then some "RetryLoopDetector" else none,
   [suppressedCopy (mkDet 2 (some "t4") (some "fallback_storm") "FallbackStormDetector")
      "FallbackStormDetector" ("higher_priority_detector:" ++ "RetryLoopDetector")],
   [markActive (mkDet 0 (some "t4") (some "retry_loop") "RetryLoopDetector")]⟩

/-- Detection fed in the C4 witness call. -/
def w4Det : Detection := mkDet 7 (some "t9") (some "overkill_model") "OverkillModelDetector"

/-- C4 witness: the prior suppressed list survives a further call as a
prefix, and a concrete member of the new active list is traced back to the
call's input. -/
theorem suppression_monotonic_witness :
    (markActive w4Det ∈
      (processDetections w4State "OverkillModelDetector" [w4Det]).2.active_detections)
    ∧ (w4State.suppressed_detections <+:
        (runCalls w4State [("OverkillModelDetector", [w4Det])]).suppressed_detections)
    ∧ (markActive w4Det ∈ w4State.active_detections
        ∨ ∃ e ∈ [w4Det], markActive w4Det = e ∨ markActive w4Det = markActive e) :=
  ⟨by decide,
   suppression_monotonic.1 w4State [("OverkillModelDetector", [w4Det])],
   suppression_monotonic.2 w4State "OverkillModelDetector" [w4Det] (markActive w4Det)
     (by decide)⟩

/-!
## Detections without a usable trace id
-/

/-- Python falsiness of the `trace_id` value: absent or the empty string. -/
def noTrace (o : Option String) : Bool :=
  match o with
  | none => true
  | some t => decide (t = "")

theorem processOne_falsy (name : String) (a : List Detection) (s : EngineState)
    (d : Detection) (h : noTrace d.trace_id = true) :
    processOne name (a, s) d = (a ++ [d], s) := by
  rcases hd : d.trace_id with _ | t
  · exact processOne_no_trace name a s d hd
  · have ht : t = "" := by
      rw [hd] at h
      simpa [noTrace] using h
    subst ht
    exact processOne_empty_trace name a s d hd

theorem processOne_local_mono (name : String) (a : List Detection) (s : EngineState)
    (d : Detection) (x : Detection) (hx : x ∈ a) :
    x ∈ (processOne name (a, s) d).1 := by
  rcases hd : d.trace_id with _ | t
  · rw [processOne_no_trace name a s d hd]
    exact List.mem_append_left _ hx
  · by_cases hte : t = ""
    · subst hte
      rw [processOne_empty_trace name a s d hd]
      exact List.mem_append_left _ hx
    · rcases hb : isDetectorSuppressed s name t with _ | _
      · rcases ho : s.trace_ownership t with _ | w
        · rw [processOne_fresh name a s d t hd hte hb ho]
          exact List.mem_append_left _ hx
        · rcases Nat.lt_trichotomy (priorityOf name) (priorityOf w) with hp | hp | hp
          · rw [processOne_transfer name a s d t w hd hte hb ho hp]
            exact List.mem_append_left _ hx
          · rw [processOne_equal name a s d t w hd hte hb ho hp.symm]
            exact List.mem_append_left _ hx
          · rw [processOne_lower name a s d t w hd hte hb ho hp]
            exact hx
      · rw [processOne_config name a s d t hd hte hb]
        exact hx

theorem foldl_local_mono (name : String) (dets : List Detection) (a : List Detection)
    (s : EngineState) (x : Detection) (hx : x ∈ a) :
    x ∈ (dets.foldl (processOne name) (a, s)).1 := by
  induction dets generalizing a s with
  | nil => exact hx
  | cons c rest ih =>
    rcases hps : processOne name (a, s) c with ⟨a1, s1⟩
    rw [List.foldl_cons, hps]
    have h1 : x ∈ (processOne name (a, s) c).1 := processOne_local_mono name a s c x hx
    rw [hps] at h1
    exact ih a1 s1 h1

theorem foldl_falsy_mem (name : String) (dets : List Detection) (a : List Detection)
    (s : EngineState) (d : Detection) (hd : d ∈ dets) (h : noTrace d.trace_id = true) :
    d ∈ (dets.foldl (processOne name) (a, s)).1 := by
  induction dets generalizing a s with
  | nil => exact absurd hd (List.not_mem_nil d)
  | cons c rest ih =>
    rcases hps : processOne name (a, s) c with ⟨a1, s1⟩
    rw [List.foldl_cons, hps]
    rcases List.mem_cons.1 hd with heq | hmem
    · subst heq
      have h1 : processOne name (a, s) d = (a ++ [d], s) := processOne_falsy name a s d h
      rw [h1] at hps
      injection hps with ha1 hs1
      rw [← ha1, ← hs1]
      exact foldl_local_mono name rest (a ++ [d]) s d
        (List.mem_append_right a (List.mem_singleton_self d))
    · exact ih a1 s1 hmem

theorem foldl_falsy_state (name : String) (dets : List Detection) (a : List Detection)
    (s : EngineState) (hall : ∀ e ∈ dets, noTrace e.trace_id = true) :
    (dets.foldl (processOne name) (a, s)).2 = s := by
  induction dets generalizing a s with
  | nil => rfl
  | cons c rest ih =>
    rw [List.foldl_cons, processOne_falsy name a s c (hall c (List.mem_cons_self c rest))]
    exact ih (a ++ [c]) s (fun e he => hall e (List.mem_cons_of_mem c he))

theorem processOne_suppressed_truthy (name : String) (a : List Detection) (s : EngineState)
    (d : Detection)
    (hs : ∀ x ∈ s.suppressed_detections, x.trace_id ≠ none ∧ x.trace_id ≠ some "") :
    ∀ x ∈ (processOne name (a, s) d).2.suppressed_detections,
      x.trace_id ≠ none ∧ x.trace_id ≠ some "" := by
  rcases hd : d.trace_id with _ | t
  · rw [processOne_no_trace name a s d hd]
    exact hs
  · by_cases hte : t = ""
    · subst hte
      rw [processOne_empty_trace name a s d hd]
      exact hs
    · rcases hb : isDetectorSuppressed s name t with _ | _
      · rcases ho : s.trace_ownership t with _ | w
        · rw [processOne_fresh name a s d t hd hte hb ho]
          exact hs
        · rcases Nat.lt_trichotomy (priorityOf name) (priorityOf w) with hp | hp | hp
          · rw [processOne_transfer name a s d t w hd hte hb ho hp]
            intro x hx
            have hx2 : x ∈ (transferOwnership s t w name).suppressed_detections := hx
            rw [transferOwnership_eq] at hx2
            rcases List.mem_append.1 hx2 with h | h
            · exact hs x h
            · obtain ⟨e, he, rfl⟩ := List.mem_map.1 h
              have hm : transferMatch t w e = true := (List.mem_filter.1 he).2
              have hbeq : (e.trace_id == some t) = true := (Bool.and_eq_true .. ▸ hm).1
              have het : e.trace_id = some t := eq_of_beq hbeq
              refine ⟨?_, ?_⟩
              · show e.trace_id ≠ none
                rw [het]
                exact Option.noConfusion
              · show e.trace_id ≠ some ""
                rw [het]
                intro hcontra
                exact hte (by injection hcontra)
          · rw [processOne_equal name a s d t w hd hte hb ho hp.symm]
            exact hs
          · rw [processOne_lower name a s d t w hd hte hb ho hp]
            intro x hx
            rcases List.mem_append.1 hx with h | h
            · exact hs x h
            · have hx3 : x = suppressedCopy d name ("higher_priority_detector:" ++ w) :=
                List.mem_singleton.1 h
              subst hx3
              refine ⟨?_, ?_⟩
              · show d.trace_id ≠ none
                rw [hd]
                exact Option.noConfusion
              · show d.trace_id ≠ some ""
                rw [hd]
                intro hcontra
                exact hte (by injection hcontra)
      · rw [processOne_config name a s d t hd hte hb]
        intro x hx
        rcases List.mem_append.1 hx with h | h
        · exact hs x h
        · have hx3 : x = suppressedCopy d name "disabled_by_config" := List.mem_singleton.1 h
          subst hx3
          refine ⟨?_, ?_⟩
          · show d.trace_id ≠ none
            rw [hd]
            exact Option.noConfusion
          · show d.trace_id ≠ some ""
            rw [hd]
            intro hcontra
            exact hte (by injection hcontra)

theorem foldl_suppressed_truthy (name : String) (dets : List Detection)
    (a : List Detection) (s : EngineState)
    (hs : ∀ x ∈ s.suppressed_detections, x.trace_id ≠ none ∧ x.trace_id ≠ some "") :
    ∀ x ∈ (dets.foldl (processOne name) (a, s)).2.suppressed_detections,
      x.trace_id ≠ none ∧ x.trace_id ≠ some "" := by
  induction dets generalizing a s with
  | nil => exact hs
  | cons c rest ih =>
    rcases hps : processOne name (a, s) c with ⟨a1, s1⟩
    rw [List.foldl_cons, hps]
    have h1 := processOne_suppressed_truthy name a s c hs
    rw [hps] at h1
    exact ih a1 s1 h1

theorem runCalls_suppressed_truthy (s : EngineState)
    (calls : List (String × List Detection))
    (hs : ∀ x ∈ s.suppressed_detections, x.trace_id ≠ none ∧ x.trace_id ≠ some "") :
    ∀ x ∈ (runCalls s calls).suppressed_detections,
      x.trace_id ≠ none ∧ x.trace_id ≠ some "" := by
  induction calls generalizing s with
  | nil => exact hs
  | cons c cs ih =>
    have h1 : runCalls s (c :: cs) = runCalls (processDetections s c.1 c.2).2 cs := rfl
    rw [h1]
    refine ih (processDetections s c.1 c.2).2 ?_
    rcases hps : c.2.foldl (processOne c.1) ([], s) with ⟨a1, s1⟩
    have h2 : (processDetections s c.1 c.2).2.suppressed_detections =
        s1.suppressed_detections := by
      unfold processDetections
      rw [hps]
    rw [h2]
    have h3 := foldl_suppressed_truthy c.1 c.2 [] s hs
    rw [hps] at h3
    exact h3

theorem processOne_own_preserve (name : String) (a : List Detection) (s : EngineState)
    (d : Detection) (k : String) (hk : k = "" ∨ s.trace_ownership k ≠ none)
    (h : s.trace_ownership k = none) :
    (processOne name (a, s) d).2.trace_ownership k = none := by
  rcases hd : d.trace_id with _ | t
  · rw [processOne_no_trace name a s d hd]
    exact h
  · by_cases hte : t = ""
    · subst hte
      rw [processOne_empty_trace name a s d hd]
      exact h
    · have hkt : k ≠ t := by
        rcases hk with hk1 | hk1
        · subst hk1
          exact fun hc => hte hc.symm
        · exact absurd h hk1
      rcases hb : isDetectorSuppressed s name t with _ | _
      · rcases ho : s.trace_ownership t with _ | w
        · rw [processOne_fresh name a s d t hd hte hb ho]
          show (if k = t then some name else s.trace_ownership k) = none
          rw [if_neg hkt]
          exact h
        · rcases Nat.lt_trichotomy (priorityOf name) (priorityOf w) with hp | hp | hp
          · rw [processOne_transfer name a s d t w hd hte hb ho hp]
            show (if k = t then some name
                else (transferOwnership s t w name).trace_ownership k) = none
            rw [if_neg hkt, transferOwnership_eq]
            exact h
          · rw [processOne_equal name a s d t w hd hte hb ho hp.symm]
            show (if k = t then some name else s.trace_ownership k) = none
            rw [if_neg hkt]
            exact h
          · rw [processOne_lower name a s d t w hd hte hb ho hp]
            exact h
      · rw [processOne_config name a s d t hd hte hb]
        exact h

theorem foldl_own_empty (name : String) (dets : List Detection)
    (a : List Detection) (s : EngineState) (h : s.trace_ownership "" = none) :
    (dets.foldl (processOne name) (a, s)).2.trace_ownership "" = none := by
  induction dets generalizing a s with
  | nil => exact h
  | cons c rest ih =>
    rcases hps : processOne name (a, s) c with ⟨a1, s1⟩
    rw [List.foldl_cons, hps]
    have h1 := processOne_own_preserve name a s c "" (Or.inl rfl) h
    rw [hps] at h1
    exact ih a1 s1 h1

theorem runCalls_own_empty (s : EngineState) (calls : List (String × List Detection))
    (h : s.trace_ownership "" = none) :
    (runCalls s calls).trace_ownership "" = none := by
  induction calls generalizing s with
  | nil => exact h
  | cons c cs ih =>
    have h1 : runCalls s (c :: cs) = runCalls (processDetections s c.1 c.2).2 cs := rfl
    rw [h1]
    refine ih (processDetections s c.1 c.2).2 ?_
    rcases hps : c.2.foldl (processOne c.1) ([], s) with ⟨a1, s1⟩
    have h2 : (processDetections s c.1 c.2).2.trace_ownership = s1.trace_ownership := by
      unfold processDetections
      rw [hps]
    rw [h2]
    have h3 := foldl_own_empty c.1 c.2 [] s h
    rw [hps] at h3
    exact h3

/-- C7: a detection with no `trace_id` key is appended to the returned
active list unconditionally; nothing in the suppressed set of a fresh engine
ever lacks a `trace_id`; and a batch of such detections leaves the ownership
table untouched (`trace_id`-less detections never enter it). -/
theorem no_trace_auto_accept :
    (∀ (s : EngineState) (name : String) (dets : List Detection) (d : Detection),
      d ∈ dets → d.trace_id = none → d ∈ (processDetections s name dets).1)
    ∧ (∀ (cfg : String → Bool) (calls : List (String × List Detection)) (x : Detection),
      x ∈ (runCalls (initState cfg) calls).suppressed_detections → x.trace_id ≠ none)
    ∧ (∀ (s : EngineState) (name : String) (dets : List Detection),
      (∀ e ∈ dets, e.trace_id = none) →
      (processDetections s name dets).2.trace_ownership = s.trace_ownership) := by
  refine ⟨?_, ?_, ?_⟩
  · intro s name dets d hmem hnone
    have h : noTrace d.trace_id = true := by rw [hnone]; rfl
    exact foldl_falsy_mem name dets [] s d hmem h
  · intro cfg calls x hx
    have h0 : ∀ y ∈ (initState cfg).suppressed_detections,
        y.trace_id ≠ none ∧ y.trace_id ≠ some "" := by
      intro y hy
      exact absurd hy (List.not_mem_nil y)
    exact (runCalls_suppressed_truthy (initState cfg) calls h0 x hx).1
  · intro s name dets hall
    have hall2 : ∀ e ∈ dets, noTrace e.trace_id = true := by
      intro e he
      rw [hall e he]
      rfl
    have h := foldl_falsy_state name dets [] s hall2
    rcases hps : dets.foldl (processOne name) ([], s) with ⟨a1, s1⟩
    rw [hps] at h
    have h2 : (processDetections s name dets).2.trace_ownership = s1.trace_ownership := by
      unfold processDetections
      rw [hps]
    have h3 : s1 = s := h
    rw [h2, h3]

/-- Detection with no trace id used in the C7 witness. -/
def w7Det : Detection := mkDet 3 none (some "retry_loop") "RetryLoopDetector"

/-- C7 witness: a concrete no-`trace_id` detection is returned active, a
member of a concrete suppressed set has a trace id, and a no-`trace_id`
batch leaves ownership untouched. -/
theorem no_trace_auto_accept_witness :
    (w7Det ∈ [w7Det] ∧ w7Det.trace_id = none
      ∧ suppressedCopy w5Det "FallbackStormDetector"
          ("higher_priority_detector:" ++ "RetryLoopDetector") ∈
        (runCalls (initState (fun _ => false))
          [("RetryLoopDetector", [mkDet 0 (some "t1") (some "retry_loop") "RetryLoopDetector"]),
           ("FallbackStormDetector", [w5Det])]).suppressed_detections
      ∧ (∀ e ∈ [w7Det], e.trace_id = none))
    ∧ (w7Det ∈ (processDetections (initState (fun _ => false)) "RetryLoopDetector" [w7Det]).1
    ∧ (suppressedCopy w5Det "FallbackStormDetector"
          ("higher_priority_detector:" ++ "RetryLoopDetector")).trace_id ≠ none
    ∧ (processDetections (initState (fun _ => false)) "RetryLoopDetector" [w7Det]).2.trace_ownership =
        (initState (fun _ => false)).trace_ownership) :=
  ⟨⟨by decide, by decide, by decide, by decide⟩,
   no_trace_auto_accept.1 (initState (fun _ => false)) "RetryLoopDetector" [w7Det] w7Det
     (by decide) (by decide),
   no_trace_auto_accept.2.1 (fun _ => false)
     [("RetryLoopDetector", [mkDet 0 (some "t1") (some "retry_loop") "RetryLoopDetector"]),
      ("FallbackStormDetector", [w5Det])]
     (suppressedCopy w5Det "FallbackStormDetector"
       ("higher_priority_detector:" ++ "RetryLoopDetector")) (by decide),
   no_trace_auto_accept.2.2 (initState (fun _ => false)) "RetryLoopDetector" [w7Det]
     (by decide)⟩

/-- C9: a detection whose `trace_id` is present but the empty string is
treated exactly like one with no trace id: it is appended to the returned
active list unconditionally, no suppressed detection of a fresh engine ever
carries an empty `trace_id`, and the empty string never becomes a key of
the ownership table. -/
theorem empty_trace_auto_accept :
    (∀ (s : EngineState) (name : String) (dets : List Detection) (d : Detection),
      d ∈ dets → d.trace_id = some "" → d ∈ (processDetections s name dets).1)
    ∧ (∀ (cfg : String → Bool) (calls : List (String × List Detection)) (x : Detection),
      x ∈ (runCalls (initState cfg) calls).suppressed_detections → x.trace_id ≠ some "")
    ∧ (∀ (cfg : String → Bool) (calls : List (String × List Detection)),
      (runCalls (initState cfg) calls).trace_ownership "" = none) := by
  refine ⟨?_, ?_, ?_⟩
  · intro s name dets d hmem hempty
    have h : noTrace d.trace_id = true := by
      rw [hempty]
      simp [noTrace]
    exact foldl_falsy_mem name dets [] s d hmem h
  · intro cfg calls x hx
    have h0 : ∀ y ∈ (initState cfg).suppressed_detections,
        y.trace_id ≠ none ∧ y.trace_id ≠ some "" := by
      intro y hy
      exact absurd hy (List.not_mem_nil y)
    exact (runCalls_suppressed_truthy (initState cfg) calls h0 x hx).2
  · intro cfg calls
    exact runCalls_own_empty (initState cfg) calls rfl

/-- Detection with an empty-string trace id used in the C9 witness. -/
def w9Det : Detection := mkDet 4 (some "") (some "fallback_storm") "FallbackStormDetector"

/-- C9 witness: a concrete empty-string-`trace_id` detection is returned
active, a member of a concrete suppressed set has a nonempty trace id, and
the empty string owns nothing after a concrete run. -/
theorem empty_trace_auto_accept_witness :
    (w9Det ∈ [w9Det] ∧ w9Det.trace_id = some "")
    ∧ (w9Det ∈ (processDetections (initState (fun _ => false)) "FallbackStormDetector" [w9Det]).1
    ∧ (suppressedCopy w5Det "FallbackStormDetector"
          ("higher_priority_detector:" ++ "RetryLoopDetector")).trace_id ≠ some ""
    ∧ (runCalls (initState (fun _ => false))
        [("FallbackStormDetector", [w9Det])]).trace_ownership "" = none) :=
  ⟨⟨by decide, by decide⟩,
   empty_trace_auto_accept.1 (initState (fun _ => false)) "FallbackStormDetector" [w9Det] w9Det
     (by decide) (by decide),
   empty_trace_auto_accept.2.1 (fun _ => false)
     [("RetryLoopDetector", [mkDet 0 (some "t1") (some "retry_loop") "RetryLoopDetector"]),
      ("FallbackStormDetector", [w5Det])]
     (suppressedCopy w5Det "FallbackStormDetector"
       ("higher_priority_detector:" ++ "RetryLoopDetector"))
     (by decide),
   empty_trace_auto_accept.2.2 (fun _ => false) [("FallbackStormDetector", [w9Det])]⟩

/-!
## The ownership invariant
-/

/-- The detection's normalised `type` is a substring of its own producer's
lowercased name (true of every detector/type pair shipped in the repo, e.g.
`retry_loop` vs `RetryLoopDetector`). -/
def substrOk (d : Detection) : Bool :=
  isSubList (normType d.dtype) (lowerChars d.producer.toList)

/-- Every detection in `l` that carries a usable trace id was produced by
the recorded owner of that trace. -/
def OwnedBy (own : String → Option String) (l : List Detection) : Prop :=
  ∀ d ∈ l, ∀ t, d.trace_id = some t → t ≠ "" → own t = some d.producer

/-- Every detection in `l` satisfies the normalised-type condition. -/
def AllSubstr (l : List Detection) : Prop := ∀ d ∈ l, substrOk d = true

/-- Every recorded owner is one of the four known detectors. -/
def OwnersKnown (own : String → Option String) : Prop :=
  ∀ t w, own t = some w → isKnown w = true

/-- Invariant carried through the `process_detections` loop: the local
`active` list together with the stored active list is owned consistently. -/
def LoopInv (nm : String) (a : List Detection) (s : EngineState) : Prop :=
  OwnedBy s.trace_ownership (a ++ s.active_detections)
  ∧ AllSubstr (a ++ s.active_detections)
  ∧ OwnersKnown s.trace_ownership
  ∧ ∀ e ∈ a, e.producer = nm

theorem substrOk_markActive (d : Detection) : substrOk (markActive d) = substrOk d := rfl

theorem mem_append3 {e x : Detection} {a act : List Detection}
    (h : e ∈ (a ++ [x]) ++ act) : e ∈ a ∨ e = x ∨ e ∈ act := by
  rcases List.mem_append.1 h with h1 | h1
  · rcases List.mem_append.1 h1 with h2 | h2
    · exact Or.inl h2
    · exact Or.inr (Or.inl (List.mem_singleton.1 h2))
  · exact Or.inr (Or.inr h1)

theorem upd_invariant (nm t : String) (own : String → Option String)
    (a act2 : List Detection) (d : Detection)
    (hd : d.trace_id = some t) (hname : isKnown nm = true) (hprod : d.producer = nm)
    (hsub : substrOk d = true)
    (hA : OwnedBy own (a ++ act2)) (hS : AllSubstr (a ++ act2))
    (hK : OwnersKnown own) (hP : ∀ e ∈ a, e.producer = nm)
    (hT : ∀ e ∈ act2, e.trace_id = some t → e.producer = nm) :
    OwnedBy (fun k => if k = t then some nm else own k) ((a ++ [markActive d]) ++ act2)
    ∧ AllSubstr ((a ++ [markActive d]) ++ act2)
    ∧ OwnersKnown (fun k => if k = t then some nm else own k)
    ∧ ∀ e ∈ a ++ [markActive d], e.producer = nm := by
  refine ⟨?_, ?_, ?_, ?_⟩
  · intro e he t' het hne
    rcases mem_append3 he with hea | hed | heact
    · by_cases hteq : t' = t
      · subst hteq
        show (if t' = t' then some nm else own t') = some e.producer
        rw [if_pos rfl, hP e hea]
      · show (if t' = t then some nm else own t') = some e.producer
        rw [if_neg hteq]
        exact hA e (List.mem_append_left _ hea) t' het hne
    · subst hed
      have het2 : d.trace_id = some t' := het
      rw [hd] at het2
      have hteq : t = t' := by injection het2
      subst hteq
      show (if t = t then some nm else own t) = some (markActive d).producer
      rw [if_pos rfl]
      show some nm = some d.producer
      rw [hprod]
    · by_cases hteq : t' = t
      · subst hteq
        show (if t' = t' then some nm else own t') = some e.producer
        rw [if_pos rfl, hT e heact (by rw [het])]
      · show (if t' = t then some nm else own t') = some e.producer
        rw [if_neg hteq]
        exact hA e (List.mem_append_right _ heact) t' het hne
  · intro e he
    rcases mem_append3 he with hea | hed | heact
    · exact hS e (List.mem_append_left _ hea)
    · subst hed
      rw [substrOk_markActive]
      exact hsub
    · exact hS e (List.mem_append_right _ heact)
  · intro t' w h
    by_cases hteq : t' = t
    · subst hteq
      have h3 : (if t' = t' then some nm else own t') = some w := h
      rw [if_pos rfl] at h3
      have hw : nm = w := by injection h3
      rw [← hw]
      exact hname
    · have h3 : (if t' = t then some nm else own t') = some w := h
      rw [if_neg hteq] at h3
      exact hK t' w h3
  · intro e he
    rcases List.mem_append.1 he with h1 | h1
    · exact hP e h1
    · rw [List.mem_singleton.1 h1]
      exact hprod

theorem processOne_invariant (nm : String) (a : List Detection) (s : EngineState)
    (d : Detection) (hname : isKnown nm = true) (hprod : d.producer = nm)
    (hsub : substrOk d = true) (hInv : LoopInv nm a s) :
    LoopInv nm (processOne nm (a, s) d).1 (processOne nm (a, s) d).2 := by
  obtain ⟨hA, hS, hK, hP⟩ := hInv
  rcases hd : d.trace_id with _ | t
  · rw [processOne_no_trace nm a s d hd]
    refine ⟨?_, ?_, hK, ?_⟩
    · intro e he t' het hne
      rcases mem_append3 he with h1 | h1 | h1
      · exact hA e (List.mem_append_left _ h1) t' het hne
      · subst h1
        rw [hd] at het
        exact Option.noConfusion het
      · exact hA e (List.mem_append_right _ h1) t' het hne
    · intro e he
      rcases mem_append3 he with h1 | h1 | h1
      · exact hS e (List.mem_append_left _ h1)
      · subst h1
        exact hsub
      · exact hS e (List.mem_append_right _ h1)
    · intro e he
      rcases List.mem_append.1 he with h1 | h1
      · exact hP e h1
      · rw [List.mem_singleton.1 h1]
        exact hprod
  · by_cases hte : t = ""
    · subst hte
      rw [processOne_empty_trace nm a s d hd]
      refine ⟨?_, ?_, hK, ?_⟩
      · intro e he t' het hne
        rcases mem_append3 he with h1 | h1 | h1
        · exact hA e (List.mem_append_left _ h1) t' het hne
        · subst h1
          rw [hd] at het
          have h2 : "" = t' := by injection het
          exact absurd h2.symm hne
        · exact hA e (List.mem_append_right _ h1) t' het hne
      · intro e he
        rcases mem_append3 he with h1 | h1 | h1
        · exact hS e (List.mem_append_left _ h1)
        · subst h1
          exact hsub
        · exact hS e (List.mem_append_right _ h1)
      · intro e he
        rcases List.mem_append.1 he with h1 | h1
        · exact hP e h1
        · rw [List.mem_singleton.1 h1]
          exact hprod
    · rcases hb : isDetectorSuppressed s nm t with _ | _
      · rcases ho : s.trace_ownership t with _ | w
        · rw [processOne_fresh nm a s d t hd hte hb ho]
          refine upd_invariant nm t s.trace_ownership a s.active_detections d hd hname
            hprod hsub hA hS hK hP ?_
          intro e he het
          have hcontra := hA e (List.mem_append_right a he) t het hte
          rw [ho] at hcontra
          exact Option.noConfusion hcontra
        · rcases Nat.lt_trichotomy (priorityOf nm) (priorityOf w) with hp | hp | hp
          · rw [processOne_transfer nm a s d t w hd hte hb ho hp, transferOwnership_eq]
            refine upd_invariant nm t s.trace_ownership a
              (s.active_detections.filter (fun e => !(transferMatch t w e))) d hd hname
              hprod hsub ?_ ?_ hK hP ?_
            · intro e he t' het hne
              rcases List.mem_append.1 he with h1 | h1
              · exact hA e (List.mem_append_left _ h1) t' het hne
              · exact hA e (List.mem_append_right _ (List.mem_filter.1 h1).1) t' het hne
            · intro e he
              rcases List.mem_append.1 he with h1 | h1
              · exact hS e (List.mem_append_left _ h1)
              · exact hS e (List.mem_append_right _ (List.mem_filter.1 h1).1)
            · intro e he het
              obtain ⟨heact, hcond⟩ := List.mem_filter.1 he
              have hown := hA e (List.mem_append_right a heact) t het hte
              rw [ho] at hown
              have hprodw : e.producer = w := by
                have h2 : w = e.producer := by injection hown
                exact h2.symm
              have hm : transferMatch t w e = true := by
                unfold transferMatch
                rw [Bool.and_eq_true]
                refine ⟨?_, ?_⟩
                · rw [het]
                  exact beq_self_eq_true (some t)
                · have hsube := hS e (List.mem_append_right a heact)
                  unfold substrOk at hsube
                  rw [hprodw] at hsube
                  exact hsube
              rw [hm] at hcond
              exact absurd hcond (by decide)
          · rw [processOne_equal nm a s d t w hd hte hb ho hp.symm]
            have hKw : isKnown w = true := hK t w ho
            have hweq : w = nm := known_priority_inj w nm hKw hname hp.symm
            refine upd_invariant nm t s.trace_ownership a s.active_detections d hd hname
              hprod hsub hA hS hK hP ?_
            intro e he het
            have hown := hA e (List.mem_append_right a he) t het hte
            rw [ho] at hown
            have h2 : w = e.producer := by injection hown
            rw [← h2]
            exact hweq
          · rw [processOne_lower nm a s d t w hd hte hb ho hp]
            exact ⟨hA, hS, hK, hP⟩
      · rw [processOne_config nm a s d t hd hte hb]
        exact ⟨hA, hS, hK, hP⟩

/-- The ownership invariant on a quiescent engine state. -/
def GoodState (s : EngineState) : Prop :=
  OwnedBy s.trace_ownership s.active_detections
  ∧ AllSubstr s.active_detections
  ∧ OwnersKnown s.trace_ownership

theorem foldl_invariant (nm : String) (dets : List Detection) (a : List Detection)
    (s : EngineState) (hname : isKnown nm = true)
    (hdets : ∀ d ∈ dets, d.producer = nm ∧ substrOk d = true) (hInv : LoopInv nm a s) :
    LoopInv nm (dets.foldl (processOne nm) (a, s)).1
      (dets.foldl (processOne nm) (a, s)).2 := by
  induction dets generalizing a s with
  | nil => exact hInv
  | cons c rest ih =>
    rcases hps : processOne nm (a, s) c with ⟨a1, s1⟩
    rw [List.foldl_cons, hps]
    have hc := hdets c (List.mem_cons_self c rest)
    have h1 := processOne_invariant nm a s c hname hc.1 hc.2 hInv
    rw [hps] at h1
    exact ih a1 s1 (fun d hd => hdets d (List.mem_cons_of_mem c hd)) h1

theorem processDetections_invariant (s : EngineState) (nm : String)
    (dets : List Detection) (hname : isKnown nm = true)
    (hdets : ∀ d ∈ dets, d.producer = nm ∧ substrOk d = true) (hG : GoodState s) :
    GoodState (processDetections s nm dets).2 := by
  have hInv0 : LoopInv nm [] s := ⟨hG.1, hG.2.1, hG.2.2, fun e he => absurd he (List.not_mem_nil e)⟩
  have h := foldl_invariant nm dets [] s hname hdets hInv0
  rcases hps : dets.foldl (processOne nm) ([], s) with ⟨a1, s1⟩
  rw [hps] at h
  obtain ⟨hA, hS, hK, _⟩ := h
  have heq : (processDetections s nm dets).2 =
      { s1 with active_detections := s1.active_detections ++ a1 } := by
    unfold processDetections
    rw [hps]
  rw [heq]
  refine ⟨?_, ?_, hK⟩
  · intro e he t het hne
    rcases List.mem_append.1 he with h1 | h1
    · exact hA e (List.mem_append_right _ h1) t het hne
    · exact hA e (List.mem_append_left _ h1) t het hne
  · intro e he
    rcases List.mem_append.1 he with h1 | h1
    · exact hS e (List.mem_append_right _ h1)
    · exact hS e (List.mem_append_left _ h1)

theorem runCalls_invariant (s : EngineState) (calls : List (String × List Detection))
    (hcalls : ∀ c ∈ calls, isKnown c.1 = true ∧
      ∀ d ∈ c.2, d.producer = c.1 ∧ substrOk d = true)
    (hG : GoodState s) : GoodState (runCalls s calls) := by
  induction calls generalizing s with
  | nil => exact hG
  | cons c cs ih =>
    have h1 : runCalls s (c :: cs) = runCalls (processDetections s c.1 c.2).2 cs := rfl
    rw [h1]
    have hc := hcalls c (List.mem_cons_self c cs)
    exact ih (processDetections s c.1 c.2).2
      (fun c2 hc2 => hcalls c2 (List.mem_cons_of_mem c hc2))
      (processDetections_invariant s c.1 c.2 hc.1 hc.2 hG)

/-- C1 (amended): assume every call names one of the four known detectors
and every fed detection was produced by the calling detector with a
normalised `type` that is a substring of that detector's lowercased name
(true of the repo's detectors).  Then after any sequence of
`process_detections` calls the ownership table maps each trace to at most
one detector, and every active detection carrying a usable trace id was
produced by the recorded owner of its trace. -/
theorem single_ownership_amended (cfg : String → Bool)
    (calls : List (String × List Detection))
    (hcalls : ∀ c ∈ calls, isKnown c.1 = true ∧
      ∀ d ∈ c.2, d.producer = c.1 ∧ substrOk d = true) :
    (∀ t w w2, (runCalls (initState cfg) calls).trace_ownership t = some w →
      (runCalls (initState cfg) calls).trace_ownership t = some w2 → w = w2)
    ∧ ∀ d ∈ (runCalls (initState cfg) calls).active_detections,
        ∀ t, d.trace_id = some t → t ≠ "" →
          (runCalls (initState cfg) calls).trace_ownership t = some d.producer := by
  have hG0 : GoodState (initState cfg) := by
    refine ⟨?_, ?_, ?_⟩
    · intro e he
      exact absurd he (List.not_mem_nil e)
    · intro e he
      exact absurd he (List.not_mem_nil e)
    · intro t w h
      exact Option.noConfusion h
  have hG := runCalls_invariant (initState cfg) calls hcalls hG0
  refine ⟨?_, hG.1⟩
  intro t w w2 h1 h2
  rw [h1] at h2
  injection h2

/-- Calls used by the C1 witness: the four-detector pipeline shape, with
honest producers and repo-style type strings. -/
def w1Calls : List (String × List Detection) :=
  [("FallbackFailureDetector", [mkDet 0 (some "t2") (some "fallback_failure") "FallbackFailureDetector"]),
   ("RetryLoopDetector", [mkDet 1 (some "t2") (some "retry_loop") "RetryLoopDetector"])]

/-- C1 witness: the amended invariant instantiated on a concrete run that
includes an ownership transfer. -/
theorem single_ownership_amended_witness :
    (∀ c ∈ w1Calls, isKnown c.1 = true ∧
      ∀ d ∈ c.2, d.producer = c.1 ∧ substrOk d = true)
    ∧ ((∀ t w w2,
        (runCalls (initState (fun _ => false)) w1Calls).trace_ownership t = some w →
        (runCalls (initState (fun _ => false)) w1Calls).trace_ownership t = some w2 → w = w2)
    ∧ ∀ d ∈ (runCalls (initState (fun _ => false)) w1Calls).active_detections,
        ∀ t, d.trace_id = some t → t ≠ "" →
          (runCalls (initState (fun _ => false)) w1Calls).trace_ownership t =
            some d.producer) :=
  ⟨by decide, single_ownership_amended (fun _ => false) w1Calls (by decide)⟩

/-- C1 counterexample: in `typeMismatchRun` both calls use known detectors
with honest producers, yet the final active list holds a detection for trace
`"t"` produced by `FallbackFailureDetector` while the recorded owner of
`"t"` is `RetryLoopDetector`: the fuzzy type match `"x"` ∉
`"fallbackfailuredetector"` kept it active through the transfer. -/
theorem single_ownership_cex :
    markActive oddTypeDet ∈ typeMismatchRun.active_detections
    ∧ (markActive oddTypeDet).trace_id = some "t"
    ∧ typeMismatchRun.trace_ownership "t" = some "RetryLoopDetector"
    ∧ (markActive oddTypeDet).producer ≠ "RetryLoopDetector" := by
  refine ⟨by decide, by decide, by decide, by decide⟩

/-!
## Totality of the engine on hashable/str-typed fields
-/

/-- The `trace_id` value, when present, can be used as a dict key. -/
def hashableOpt : Option PyVal → Bool
  | none => true
  | some v => pyHashable v

/-- The `type` value, when present, is a string (so `.replace` exists). -/
def strOrAbsent : Option PyVal → Bool
  | none => true
  | some (.pstr _) => true
  | some _ => false

/-- Fields under which `process_detections` cannot raise. -/
def okFieldsD (d : DynDetection) : Bool := hashableOpt d.trace_id && strOrAbsent d.dtype

/-- Every detection in the list has a string-or-absent `type`. -/
def WellTypedL (l : List DynDetection) : Prop := ∀ x ∈ l, strOrAbsent x.dtype = true

/-- Every stored active detection has a string-or-absent `type`. -/
def GoodD (s : DynState) : Prop := WellTypedL s.active_detections

theorem normTypeD_ok (o : Option PyVal) (h : strOrAbsent o = true) :
    ∃ n, normTypeD o = .ok n := by
  match o with
  | none => exact ⟨normType none, rfl⟩
  | some (.pstr s) => exact ⟨normType (some s), rfl⟩
  | some (.pint n) => exact absurd h (by simp [strOrAbsent])
  | some (.plist l) => exact absurd h (by simp [strOrAbsent])

theorem transferMatchD_ok (tid : PyVal) (w : String) (d : DynDetection)
    (h : strOrAbsent d.dtype = true) : ∃ b, transferMatchD tid w d = .ok b := by
  unfold transferMatchD
  by_cases ht : d.trace_id = some tid
  · obtain ⟨n, hn⟩ := normTypeD_ok d.dtype h
    rw [if_pos ht, hn]
    exact ⟨isSubList n (lowerChars w.toList), rfl⟩
  · rw [if_neg ht]
    exact ⟨false, rfl⟩

theorem transferSplitD_ok (tid : PyVal) (w : String) (l : List DynDetection)
    (hl : WellTypedL l) :
    ∃ p, transferSplitD tid w l = .ok p
      ∧ (∀ x ∈ p.1, x ∈ l) ∧ (∀ x ∈ p.2, x ∈ l) := by
  induction l with
  | nil => exact ⟨([], []), rfl, fun x hx => absurd hx (List.not_mem_nil x),
      fun x hx => absurd hx (List.not_mem_nil x)⟩
  | cons d rest ih =>
    obtain ⟨b, hb⟩ := transferMatchD_ok tid w d (hl d (List.mem_cons_self d rest))
    obtain ⟨p, hp, hp1, hp2⟩ := ih (fun x hx => hl x (List.mem_cons_of_mem d hx))
    refine ⟨if b then (d :: p.1, p.2) else (p.1, d :: p.2), ?_, ?_, ?_⟩
    · show transferSplitD tid w (d :: rest) = _
      unfold transferSplitD
      rw [hb, hp]
    · intro x hx
      cases b with
      | true =>
        rcases List.mem_cons.1 hx with h1 | h1
        · rw [h1]
          exact List.mem_cons_self d rest
        · exact List.mem_cons_of_mem d (hp1 x h1)
      | false => exact List.mem_cons_of_mem d (hp1 x hx)
    · intro x hx
      cases b with
      | true => exact List.mem_cons_of_mem d (hp2 x hx)
      | false =>
        rcases List.mem_cons.1 hx with h1 | h1
        · rw [h1]
          exact List.mem_cons_self d rest
        · exact List.mem_cons_of_mem d (hp2 x h1)

theorem transferOwnershipD_ok (s : DynState) (tid : PyVal) (w n : String)
    (hs : GoodD s) : ∃ s2, transferOwnershipD s tid w n = .ok s2 ∧ GoodD s2 := by
  obtain ⟨p, hp, _, hp2⟩ := transferSplitD_ok tid w s.active_detections hs
  refine ⟨{ p.1.foldl (fun st d => addSuppressedD st d w ("superseded_by:" ++ n)) s with
      active_detections := p.2 }, ?_, ?_⟩
  · unfold transferOwnershipD
    rw [hp]
  · intro x hx
    exact hs x (hp2 x hx)

theorem isDetectorSuppressedD_ok (s : DynState) (nm : String) (tid : PyVal)
    (h : pyHashable tid = true) : ∃ b, isDetectorSuppressedD s nm tid = .ok b := by
  unfold isDetectorSuppressedD
  by_cases hc : s.cfg (configKey nm) = true
  · rw [if_pos hc]
    have hg : dictGetD s.trace_ownership tid = .ok (s.trace_ownership tid) := by
      unfold dictGetD
      rw [if_pos h]
    rw [hg]
    exact ⟨_, rfl⟩
  · rw [if_neg hc]
    exact ⟨false, rfl⟩

theorem processOneD_ok (nm : String) (a : List DynDetection) (s : DynState)
    (d : DynDetection) (hd : okFieldsD d = true) (hs : GoodD s) (ha : WellTypedL a) :
    ∃ r, processOneD nm (a, s) d = .ok r ∧ WellTypedL r.1 ∧ GoodD r.2 := by
  have hok := Bool.and_eq_true _ _ ▸ hd
  obtain ⟨hH, hT⟩ : hashableOpt d.trace_id = true ∧ strOrAbsent d.dtype = true := hok
  have haD : WellTypedL (a ++ [d]) := by
    intro x hx
    rcases List.mem_append.1 hx with h1 | h1
    · exact ha x h1
    · rw [List.mem_singleton.1 h1]
      exact hT
  have haM : WellTypedL (a ++ [{ d with suppressed_by := some none }]) := by
    intro x hx
    rcases List.mem_append.1 hx with h1 | h1
    · exact ha x h1
    · rw [List.mem_singleton.1 h1]
      exact hT
  rcases htid : d.trace_id with _ | tid
  · exact ⟨(a ++ [d], s), by simp [processOneD, htid], haD, hs⟩
  · have hHt : pyHashable tid = true := by
      rw [htid] at hH
      exact hH
    by_cases htr : truthyD tid = false
    · exact ⟨(a ++ [d], s), by simp [processOneD, htid, htr], haD, hs⟩
    · obtain ⟨b, hb⟩ := isDetectorSuppressedD_ok s nm tid hHt
      have hg : dictGetD s.trace_ownership tid = .ok (s.trace_ownership tid) := by
        unfold dictGetD
        rw [if_pos hHt]
      cases b with
      | true =>
        refine ⟨(a, addSuppressedD s d nm "disabled_by_config"), ?_, ha, ?_⟩
        · simp [processOneD, htid, htr, hb]
        · intro x hx
          exact hs x hx
      | false =>
        rcases how : s.trace_ownership tid with _ | w
        · refine ⟨acceptDetD nm s tid d a, ?_, haM, ?_⟩
          · simp [processOneD, htid, htr, hb, hg, how]
          · intro x hx
            exact hs x hx
        · by_cases hpr : priorityOf nm > priorityOf w
          · refine ⟨(a, addSuppressedD s d nm ("higher_priority_detector:" ++ w)), ?_, ha, ?_⟩
            · simp [processOneD, htid, htr, hb, hg, how, hpr]
            · intro x hx
              exact hs x hx
          · by_cases hpl : priorityOf nm < priorityOf w
            · obtain ⟨s2, hs2, hG2⟩ := transferOwnershipD_ok s tid w nm hs
              refine ⟨acceptDetD nm s2 tid d a, ?_, haM, ?_⟩
              · simp [processOneD, htid, htr, hb, hg, how, hpr, hpl, hs2]
              · intro x hx
                exact hG2 x hx
            · refine ⟨acceptDetD nm s tid d a, ?_, haM, ?_⟩
              · simp [processOneD, htid, htr, hb, hg, how, hpr, hpl]
              · intro x hx
                exact hs x hx

theorem processFoldD_ok (nm : String) (dets : List DynDetection) (a : List DynDetection)
    (s : DynState) (hdets : ∀ d ∈ dets, okFieldsD d = true) (hs : GoodD s)
    (ha : WellTypedL a) :
    ∃ r, processFoldD nm dets (a, s) = .ok r ∧ WellTypedL r.1 ∧ GoodD r.2 := by
  induction dets generalizing a s with
  | nil => exact ⟨(a, s), rfl, ha, hs⟩
  | cons c rest ih =>
    obtain ⟨r1, hr1, hw1, hg1⟩ :=
      processOneD_ok nm a s c (hdets c (List.mem_cons_self c rest)) hs ha
    obtain ⟨r2, hr2, hw2, hg2⟩ := ih r1.1 r1.2
      (fun d hd => hdets d (List.mem_cons_of_mem c hd)) hg1 hw1
    refine ⟨r2, ?_, hw2, hg2⟩
    show processFoldD nm (c :: rest) (a, s) = .ok r2
    unfold processFoldD
    rw [hr1]
    have hr1e : r1 = (r1.1, r1.2) := rfl
    rw [← hr1e] at hr2
    exact hr2

theorem processDetectionsD_ok (s : DynState) (nm : String) (dets : List DynDetection)
    (hdets : ∀ d ∈ dets, okFieldsD d = true) (hs : GoodD s) :
    ∃ r, processDetectionsD s nm dets = .ok r ∧ GoodD r.2 := by
  obtain ⟨r, hr, hw, hg⟩ := processFoldD_ok nm dets [] s hdets hs
    (fun x hx => absurd hx (List.not_mem_nil x))
  refine ⟨(r.1, { r.2 with active_detections := r.2.active_detections ++ r.1 }), ?_, ?_⟩
  · unfold processDetectionsD
    rw [hr]
  · intro x hx
    rcases List.mem_append.1 hx with h1 | h1
    · exact hg x h1
    · exact hw x h1

theorem runCallsD_ok (s : DynState) (calls : List (String × List DynDetection))
    (hcalls : ∀ c ∈ calls, ∀ d ∈ c.2, okFieldsD d = true) (hs : GoodD s) :
    (runCallsD s calls).isOk = true := by
  induction calls generalizing s with
  | nil => rfl
  | cons c cs ih =>
    obtain ⟨r, hr, hg⟩ :=
      processDetectionsD_ok s c.1 c.2 (hcalls c (List.mem_cons_self c cs)) hs
    show (runCallsD s (c :: cs)).isOk = true
    unfold runCallsD
    rw [hr]
    exact ih r.2 (fun c2 h2 => hcalls c2 (List.mem_cons_of_mem c h2)) hg

/-- A detection whose `trace_id` is an (unhashable) Python list. -/
def cex8Unhashable : DynDetection :=
  ⟨0, some (.plist ["a"]), none, none, none, none, none, none⟩

/-- A detection whose `type` is the integer `123`. -/
def cex8IntType : DynDetection :=
  ⟨0, some (.pstr "t"), some (.pint 123), none, none, none, none, none⟩

/-- C8 counterexample: `process_detections` does raise on garbage field
values.  A list-valued `trace_id` hits `TypeError` at the
`trace_id in self.trace_ownership` test, and an int-valued `type` on an
active detection hits `AttributeError` inside `_transfer_ownership` when a
higher-priority detector later claims the same trace. -/
theorem engine_totality_cex :
    (runCallsD (initStateD (fun _ => false))
      [("RetryLoopDetector", [cex8Unhashable])]).isOk = false
    ∧ (runCallsD (initStateD (fun _ => false))
      [("FallbackFailureDetector", [cex8IntType]),
       ("RetryLoopDetector",
        [⟨1, some (.pstr "t"), some (.pstr "retry_loop"), none, none, none, none, none⟩])]).isOk
      = false := by
  refine ⟨by decide, by decide⟩

/-- C8 (amended): `process_detections` completes without raising on every
batch whose detections have a hashable-or-absent `trace_id` and a
string-or-absent `type`; all other fields (including `waste_cost` and
`waste_tokens`, which the engine never reads) may be absent or garbage.
With an unhashable `trace_id`, or a non-string `type` reached by an
ownership transfer, it raises. -/
theorem engine_totality_amended (cfg : String → Bool)
    (calls : List (String × List DynDetection))
    (hcalls : ∀ c ∈ calls, ∀ d ∈ c.2, okFieldsD d = true) :
    (runCallsD (initStateD cfg) calls).isOk = true :=
  runCallsD_ok (initStateD cfg) calls hcalls
    (fun x hx => absurd hx (List.not_mem_nil x))

/-- Calls used by the C8 witness: int `trace_id`, garbage `waste_cost`,
missing `waste_tokens` and `type` — all tolerated. -/
def w8Calls : List (String × List DynDetection) :=
  [("RetryLoopDetector",
    [⟨0, some (.pint 7), none, some (.plist ["garbage"]), none, none, none, none⟩]),
   ("FallbackStormDetector",
    [⟨1, some (.pstr "t"), some (.pstr "fallback_storm"), none, none, none, none, none⟩,
     ⟨2, none, none, none, none, none, none, none⟩])]

/-- C8 witness: the amended totality theorem applied to a concrete run with
malformed-but-typeable detections. -/
theorem engine_totality_amended_witness :
    (∀ c ∈ w8Calls, ∀ d ∈ c.2, okFieldsD d = true)
    ∧ (runCallsD (initStateD (fun _ => false)) w8Calls).isOk = true :=
  ⟨by decide, engine_totality_amended (fun _ => false) w8Calls (by decide)⟩
